import Mathlib

/-!
Verification of the GithubBot specification against a shallow embedding of
its sources.

The Python sources under src/ are embedded as executable Lean definitions:

* src/utils/git_helper.py            (repository identifiers)
* src/services/vector_store.py       (ChromaDB adapter)
* src/services/query_service.py      (validation, BM25 url checks, RRF fusion)
* src/worker/tasks.py                (Celery task wrappers)
* src/db/models.py                   (TaskStatus enum)
* src/utils/ast_parser.py            (length-aware chunk post-processing)
* src/services/ingestion_service.py  (ingest pipeline)

Modelling conventions: Python dicts that are used in insertion order are
embedded as association lists; floats used for scores are embedded as
rationals; exceptions are embedded as Except values or Option results;
external services (ChromaDB, tree-sitter, embedding providers, the LLM)
appear as explicit oracle parameters whose outcomes the theorems quantify
over.  Python str.lower is embedded ASCII-wise via Char.toLower.
-/

/-! ## Python value model

Metadata dictionaries in the sources hold arbitrary Python values.  A value
is either None, one of the scalar types accepted by ChromaDB
(str, int, float, bool), or some other object carried together with the
string produced by str(value). -/

inductive PyValue where
  | none
  | str (s : String)
  | int (i : Int)
  | float (q : ℚ)
  | bool (b : Bool)
  | other (strEncoding : String)
deriving DecidableEq

/-- The scalar types accepted by ChromaDB metadata:
isinstance(value, (str, int, float, bool)). -/
def PyValue.isScalar : PyValue → Bool
  | .str _ => true
  | .int _ => true
  | .float _ => true
  | .bool _ => true
  | _ => false

/-- A Python dict with string keys, in insertion order. -/
abbrev PyDict := List (String × PyValue)

/-- dict lookup: d.get(k). -/
def PyDict.get (d : PyDict) (k : String) : Option PyValue :=
  (d.find? (fun p => p.1 = k)).map (fun p => p.2)

/-- dict assignment d[k] = v: overwrite in place if the key exists,
append otherwise (insertion order preserved). -/
def PyDict.set (d : PyDict) (k : String) (v : PyValue) : PyDict :=
  if d.any (fun p => p.1 = k) then
    d.map (fun p => if p.1 = k then (k, v) else p)
  else
    d ++ [(k, v)]

/-- d.get(k, default) for string-valued entries. -/
def PyDict.getStrD (d : PyDict) (k : String) (dflt : String) : String :=
  match d.get k with
  | some (.str s) => s
  | _ => dflt

/-- d.get(k, default) for int-valued entries. -/
def PyDict.getIntD (d : PyDict) (k : String) (dflt : Int) : Int :=
  match d.get k with
  | some (.int i) => i
  | _ => dflt

/-! ## Documents and the vector store state

langchain Document objects as used by the pipeline. -/

structure Doc where
  page_content : String
  metadata : PyDict
deriving DecidableEq

/-- One entry stored in a ChromaDB collection: the id, the raw document
text, the embedding vector and the sanitized metadata. -/
structure StoredEntry where
  id : String
  document : String
  embedding : List ℚ
  metadata : PyDict
deriving DecidableEq

/-- The collections owned by the ChromaDB server, keyed by name. -/
abbrev Store := List (String × List StoredEntry)

/-- client.get_collection: the collection contents, if the name exists. -/
def Store.getCollection : Store → String → Option (List StoredEntry)
  | [], _ => none
  | p :: tl, name => if p.1 = name then some p.2 else Store.getCollection tl name

/-- Replace the contents of an existing collection. -/
def Store.setCollection (st : Store) (name : String) (entries : List StoredEntry) : Store :=
  st.map (fun p => if p.1 = name then (name, entries) else p)

/-- client.create_collection on a fresh name: append an empty collection. -/
def Store.createCollection (st : Store) (name : String) : Store :=
  st ++ [(name, [])]

/-! ## Vector store adapter (src/services/vector_store.py)

The ChromaDB client is an external service: each underlying client call can
raise.  A ChromaEnv records which of the calls made by one adapter
operation fail, so the theorems can quantify over every failure pattern. -/

/-- The dict shape returned by collection.query, and returned empty by
VectorStore.query_collection on any failure. -/
structure RawQueryResult where
  ids : List (List String)
  distances : List (List ℚ)
  metadatas : List (List PyDict)
  documents : List (List String)
deriving DecidableEq

/-- The literal fallback value at the end of VectorStore.query_collection. -/
def emptyQueryResult : RawQueryResult :=
  { ids := [[]], distances := [[]], metadatas := [[]], documents := [[]] }

/-- Failure pattern of the underlying ChromaDB client calls during one
adapter operation, plus the oracle outcome of the nearest-neighbour
search (which is computed by the external server). -/
structure ChromaEnv where
  getCollectionFails : Bool
  countFails : Bool
  addCallFails : Nat → Bool
  queryOutcome : Except String RawQueryResult
  getAllFails : Bool

/-- The environment in which every client call succeeds. -/
def noFailEnv : ChromaEnv :=
  { getCollectionFails := false
    countFails := false
    addCallFails := fun _ => false
    queryOutcome := .ok emptyQueryResult
    getAllFails := false }

/-- Little-endian decimal digit characters of n, with enough fuel. -/
def natToDecAux : Nat → Nat → List Char
  | 0, _ => []
  | fuel + 1, n => if n = 0 then [] else Nat.digitChar (n % 10) :: natToDecAux fuel (n / 10)

/-- Decimal rendering of a Nat, as Python str() renders int. -/
def natToDec (n : Nat) : String :=
  if n = 0 then "0" else ((natToDecAux n n).reverse).asString

/-- The id f-string in add_documents_to_collection. -/
def chunkId (collectionName : String) (k : Nat) : String :=
  "chunk_" ++ collectionName ++ "_" ++ natToDec k

/-- The metadata sanitizer in add_documents_to_collection: None becomes the
empty string, scalars are kept, anything else is replaced by str(value). -/
def sanitizeValue : PyValue → PyValue
  | .none => .str ""
  | .str s => .str s
  | .int i => .int i
  | .float q => .float q
  | .bool b => .bool b
  | .other strEncoding => .str strEncoding

/-- metadata = doc.metadata.copy(); metadata["content"] = doc.page_content;
then every value is sanitized, in insertion order. -/
def cleanedMetadata (d : Doc) : PyDict :=
  (d.metadata.set "content" (.str d.page_content)).map
    (fun p => (p.1, sanitizeValue p.2))

/-- settings.EMBEDDING_BATCH_SIZE default (src/core/config.py). -/
def EMBEDDING_BATCH_SIZE : Nat := 32

/-- The entries written by one collection.add call: the j-th document of
the batch starting at ordinal startId gets id chunkId name (startId + j). -/
def mkBatchEntries (name : String) (startId : Nat) :
    List (Doc × List ℚ) → List StoredEntry
  | [] => []
  | p :: ps =>
    { id := chunkId name startId
      document := p.1.page_content
      embedding := p.2
      metadata := cleanedMetadata p.1 } :: mkBatchEntries name (startId + 1) ps

/-- The batch loop of add_documents_to_collection.  Returns whether all
collection.add calls succeeded, together with the entries appended (a
failing call aborts the loop via the outer except, but entries already
added persist). -/
def addBatchesLoop (env : ChromaEnv) (name : String) (docs : List Doc)
    (embs : List (List ℚ)) (bs : Nat) (startId : Nat) (callIdx : Nat)
    (hbs : 0 < bs) : Bool × List StoredEntry :=
  match docs with
  | [] => (true, [])
  | d :: ds =>
    let batchDocs := (d :: ds).take bs
    let batchEmbs := embs.take bs
    if batchDocs.length ≠ batchEmbs.length then (false, [])
    else if env.addCallFails callIdx then (false, [])
    else
      let entries := mkBatchEntries name startId (batchDocs.zip batchEmbs)
      let rest := addBatchesLoop env name ((d :: ds).drop bs) (embs.drop bs) bs
        (startId + bs) (callIdx + 1) hbs
      (rest.1, entries ++ rest.2)
termination_by docs.length
decreasing_by
  simp only [List.length_drop, List.length_cons]
  omega

/-- VectorStore.add_documents_to_collection: read the current count, then
append batches whose ids continue from it; any failure yields False. -/
def add_documents_to_collection (env : ChromaEnv) (st : Store) (name : String)
    (documents : List Doc) (embeddings : List (List ℚ))
    (batch_size : Option Nat) : Bool × Store :=
  if env.getCollectionFails then (false, st) else
  match st.getCollection name with
  | none => (false, st)
  | some coll =>
    let bs := match batch_size with
      | some b => if b = 0 then EMBEDDING_BATCH_SIZE else b
      | none => EMBEDDING_BATCH_SIZE
    if hbs : bs = 0 then (false, st)
    else
      let existing := if env.countFails then 0 else coll.length
      let res := addBatchesLoop env name documents embeddings bs existing 0
        (Nat.pos_of_ne_zero hbs)
      (res.1, st.setCollection name (coll ++ res.2))

/-- VectorStore.query_collection: any failure returns the empty result. -/
def query_collection (env : ChromaEnv) (st : Store) (name : String)
    (_query_embedding : List ℚ) (_n_results : Nat) : RawQueryResult :=
  if env.getCollectionFails then emptyQueryResult else
  match st.getCollection name with
  | none => emptyQueryResult
  | some _ =>
    match env.queryOutcome with
    | .ok r => r
    | .error _ => emptyQueryResult

/-- The record shape built by get_all_documents_from_collection. -/
structure DocRecord where
  id : String
  content : String
  metadata : PyDict
deriving DecidableEq

/-- VectorStore.get_all_documents_from_collection: any failure returns []. -/
def get_all_documents_from_collection (env : ChromaEnv) (st : Store)
    (name : String) : List DocRecord :=
  if env.getCollectionFails then [] else
  match st.getCollection name with
  | none => []
  | some coll =>
    if env.getAllFails then []
    else coll.map (fun e => { id := e.id, content := e.document, metadata := e.metadata })

/-- VectorStore.collection_exists: get_collection succeeds iff it exists. -/
def collection_exists (env : ChromaEnv) (st : Store) (name : String) : Bool :=
  if env.getCollectionFails then false else (st.getCollection name).isSome

/-! ## Repository identifiers (src/utils/git_helper.py)

GitHelper.generate_repository_identifier, embedded at character-list level.
Python str.lower is modelled ASCII-wise (Char.toLower); urlparse is
modelled by its path-extraction behaviour on absolute http(s) URLs. -/

/-- Python str.strip(): drop leading and trailing whitespace. -/
def pyStrip (s : List Char) : List Char :=
  ((s.dropWhile Char.isWhitespace).reverse.dropWhile Char.isWhitespace).reverse

/-- Python str.lower(), ASCII model. -/
def pyLower (s : List Char) : List Char :=
  s.map Char.toLower

/-- url.startswith(("http://", "https://")). -/
def hasHttpScheme (s : List Char) : Bool :=
  List.isPrefixOf "http://".toList s || List.isPrefixOf "https://".toList s

/-- urlparse also separates params: the portion of the last slash-segment
after a semicolon. -/
def stripParams (p : List Char) : List Char :=
  let revp := p.reverse
  let segRev := revp.takeWhile (fun c => !(c == '/'))
  let preRev := revp.drop segRev.length
  preRev.reverse ++ segRev.reverse.takeWhile (fun c => !(c == ';'))

/-- urlparse(url).path for an absolute http(s) URL: drop the scheme, cut
the fragment at the first hash mark, end the netloc at the next slash or
question mark, end the path at the query question mark, and strip the
params of the last segment. -/
def urlPathOf (u : List Char) : List Char :=
  let afterScheme := if List.isPrefixOf "https://".toList u then u.drop 8 else u.drop 7
  let noFrag := afterScheme.takeWhile (fun c => !(c == '#'))
  let afterNetloc := noFrag.dropWhile (fun c => !(c == '/') && !(c == '?'))
  stripParams (afterNetloc.takeWhile (fun c => !(c == '?')))

/-- Python path.strip(specific char) for the slash. -/
def stripSlashes (p : List Char) : List Char :=
  ((p.dropWhile (fun c => c == '/')).reverse.dropWhile (fun c => c == '/')).reverse

/-- Python str.split(sep) for a single-character separator. -/
def pySplitChar (sep : Char) : List Char → List (List Char)
  | [] => [[]]
  | c :: rest =>
    if c == sep then [] :: pySplitChar sep rest
    else
      match pySplitChar sep rest with
      | [] => [[c]]
      | p :: ps => (c :: p) :: ps

/-- Python path.split(sep) for the slash separator. -/
def splitOnSlash (l : List Char) : List (List Char) :=
  pySplitChar '/' l

/-- The normalization pipeline of generate_repository_identifier up to the
extraction of owner and repository name: strip, lower, default the scheme,
take the url path, strip slashes, split and drop empty parts, require at
least two parts, and strip a trailing .git from the repository name.
Returns none where the Python code raises ValueError. -/
def extract_owner_repo (url : String) : Option (String × String) :=
  let u0 := pyLower (pyStrip url.toList)
  let u := if hasHttpScheme u0 then u0 else "https://".toList ++ u0
  let parts := (splitOnSlash (stripSlashes (urlPathOf u))).filter (fun p => !p.isEmpty)
  match parts with
  | owner :: repo :: _ =>
    let repoName := if List.isSuffixOf ".git".toList repo then repo.take (repo.length - 4) else repo
    some (owner.asString, repoName.asString)
  | _ => none

/-! ### SHA-256 (hashlib.sha256), over byte lists as Nat mod 2^8 / 2^32 -/

/-- Truncation to a 32-bit word. -/
def w32 (n : Nat) : Nat := n % 4294967296

/-- 32-bit right rotation. -/
def rotr32 (x n : Nat) : Nat := w32 ((x >>> n) ||| (x <<< (32 - n)))

/-- SHA-256 small sigma 0. -/
def ssig0 (x : Nat) : Nat := (rotr32 x 7) ^^^ (rotr32 x 18) ^^^ (x >>> 3)

/-- SHA-256 small sigma 1. -/
def ssig1 (x : Nat) : Nat := (rotr32 x 17) ^^^ (rotr32 x 19) ^^^ (x >>> 10)

/-- SHA-256 big sigma 0. -/
def bsig0 (x : Nat) : Nat := (rotr32 x 2) ^^^ (rotr32 x 13) ^^^ (rotr32 x 22)

/-- SHA-256 big sigma 1. -/
def bsig1 (x : Nat) : Nat := (rotr32 x 6) ^^^ (rotr32 x 11) ^^^ (rotr32 x 25)

/-- SHA-256 choice function; complement is xor with the 32-bit mask. -/
def chF (e f g : Nat) : Nat := (e &&& f) ^^^ ((e ^^^ 0xffffffff) &&& g)

/-- SHA-256 majority function. -/
def majF (a b c : Nat) : Nat := (a &&& b) ^^^ (a &&& c) ^^^ (b &&& c)

/-- SHA-256 round constants. -/
def sha256K : List Nat :=
  [1116352408, 1899447441, 3049323471, 3921009573, 961987163, 1508970993,
   2453635748, 2870763221, 3624381080, 310598401, 607225278, 1426881987,
   1925078388, 2162078206, 2614888103, 3248222580, 3835390401, 4022224774,
   264347078, 604807628, 770255983, 1249150122, 1555081692, 1996064986,
   2554220882, 2821834349, 2952996808, 3210313671, 3336571891, 3584528711,
   113926993, 338241895, 666307205, 773529912, 1294757372, 1396182291,
   1695183700, 1986661051, 2177026350, 2456956037, 2730485921, 2820302411,
   3259730800, 3345764771, 3516065817, 3600352804, 4094571909, 275423344,
   430227734, 506948616, 659060556, 883997877, 958139571, 1322822218,
   1537002063, 1747873779, 1955562222, 2024104815, 2227730452, 2361852424,
   2428436474, 2756734187, 3204031479, 3329325298]

/-- SHA-256 initial hash state. -/
def sha256InitH : List Nat :=
  [1779033703, 3144134277, 1013904242, 2773480762,
   1359893119, 2600822924, 528734635, 1541459225]

/-- SHA-256 padding: append 0x80, zeros to 56 mod 64, then the bit length
as eight big-endian bytes. -/
def sha256Pad (msg : List Nat) : List Nat :=
  let l := msg.length
  let z := (119 - (l % 64)) % 64
  msg ++ [0x80] ++ List.replicate z 0 ++
    ((List.range 8).map (fun i => ((8 * l) >>> (8 * (7 - i))) &&& 0xff))

/-- Split a byte list into 64-byte blocks (the fuel bounds the number of
blocks). -/
def chunksOf64Go : Nat → List Nat → List (List Nat)
  | 0, _ => []
  | fuel + 1, l => if l.isEmpty then [] else l.take 64 :: chunksOf64Go fuel (l.drop 64)

/-- Split a byte list into 64-byte blocks. -/
def chunksOf64 (l : List Nat) : List (List Nat) :=
  chunksOf64Go l.length l

/-- Big-endian 32-bit words of a 64-byte block. -/
def toWords : List Nat → List Nat
  | b0 :: b1 :: b2 :: b3 :: rest =>
    ((b0 <<< 24) ||| (b1 <<< 16) ||| (b2 <<< 8) ||| b3) :: toWords rest
  | _ => []

/-- Extend the 16 message words to 64 schedule words. -/
def extendSchedule : Nat → List Nat → List Nat
  | 0, w => w
  | fuel + 1, w =>
    let n := w.length
    let next := w32 (ssig1 (w.getD (n - 2) 0) + w.getD (n - 7) 0 +
      ssig0 (w.getD (n - 15) 0) + w.getD (n - 16) 0)
    extendSchedule fuel (w ++ [next])

/-- One SHA-256 compression round on the eight-word state. -/
def sha256Round (st : List Nat) (kw : Nat × Nat) : List Nat :=
  match st with
  | [a, b, c, d, e, f, g, h] =>
    let t1 := w32 (h + bsig1 e + chF e f g + kw.1 + kw.2)
    let t2 := w32 (bsig0 a + majF a b c)
    [w32 (t1 + t2), a, b, c, w32 (d + t1), e, f, g]
  | other => other

/-- SHA-256 compression of one 64-byte block. -/
def sha256Compress (h : List Nat) (block : List Nat) : List Nat :=
  let w := extendSchedule 48 (toWords block)
  let st := (sha256K.zip w).foldl sha256Round h
  (h.zip st).map (fun p => w32 (p.1 + p.2))

/-- The eight 32-bit words of the SHA-256 digest of a byte list. -/
def sha256Words (msg : List Nat) : List Nat :=
  (chunksOf64 (sha256Pad msg)).foldl sha256Compress sha256InitH

/-- Eight lowercase hex characters of a 32-bit word. -/
def toHex8 (x : Nat) : List Char :=
  (List.range 8).map (fun i => Nat.digitChar ((x >>> (4 * (7 - i))) &&& 0xf))

/-- hashlib.sha256(bytes).hexdigest(). -/
def sha256Hex (msg : List Nat) : String :=
  (((sha256Words msg).map toHex8).flatten).asString

/-- str.encode(): UTF-8 bytes of a string, as Nats. -/
def utf8Bytes (s : String) : List Nat :=
  (s.data.map (fun c => (String.utf8EncodeChar c).map UInt8.toNat)).flatten

/-- hashlib.sha256(f-string of owner slash repo).hexdigest()[:8]. -/
def hashSuffix (owner repoName : String) : String :=
  (sha256Hex (utf8Bytes (owner ++ "/" ++ repoName))).take 8

/-- GitHelper.generate_repository_identifier: none where the Python code
raises ValueError. -/
def generate_repository_identifier (url : String) : Option String :=
  match extract_owner_repo url with
  | none => none
  | some p =>
    some ("github_" ++ p.1 ++ "_" ++ p.2 ++ "_" ++ hashSuffix p.1 p.2)

/-! ## Stable sorting as Python sorted()

Python list.sort is stable.  pySorted le sorts by insertion, where
le x y means x may be placed before y; among elements that compare equal
the original order is kept. -/

/-- Stable insertion of x: skip elements that must stay before x. -/
def pyIns (le : α → α → Bool) (x : α) : List α → List α
  | [] => [x]
  | y :: ys => if le x y then x :: y :: ys else y :: pyIns le x ys

/-- Stable insertion sort, the model of Python sorted(). -/
def pySorted (le : α → α → Bool) : List α → List α
  | [] => []
  | x :: xs => pyIns le x (pySorted le xs)

/-! ## Reciprocal rank fusion (src/services/query_service.py)

QueryService._reciprocal_rank_fusion over exact rationals; the doc_info
dict is an association list in insertion order. -/

/-- One (doc_id, score, metadata) triple of a retrieval result list. -/
abbrev SearchHit := String × ℚ × PyDict

/-- One doc_info entry. -/
structure DocInfo where
  metadata : PyDict
  content : String
  vector_rank : Option Nat
  bm25_rank : Option Nat
  rrf_score : ℚ
deriving DecidableEq

/-- The doc_info dict: id to entry, in insertion order. -/
abbrev InfoMap := List (String × DocInfo)

/-- doc_id in doc_info. -/
def InfoMap.containsKey (m : InfoMap) (id : String) : Bool :=
  m.any (fun p => p.1 = id)

/-- doc_info lookup. -/
def InfoMap.getEntry (m : InfoMap) (id : String) : Option DocInfo :=
  (m.find? (fun p => p.1 = id)).map (fun p => p.2)

/-- In-place update of one entry (insertion order kept). -/
def InfoMap.modifyEntry (m : InfoMap) (id : String) (f : DocInfo → DocInfo) : InfoMap :=
  m.map (fun p => if p.1 = id then (p.1, f p.2) else p)

/-- The loop over enumerate(vector_results): insert unseen ids with their
1-based vector rank, then add the contribution 1/(k + rank + 1). -/
def processVectorHits (k : ℚ) : Nat → InfoMap → List SearchHit → InfoMap
  | _, acc, [] => acc
  | rank, acc, hit :: rest =>
    let docId := hit.1
    let md := hit.2.2
    let acc1 := if acc.containsKey docId then acc else
      acc ++ [(docId,
        { metadata := md
          content := md.getStrD "content" ""
          vector_rank := some (rank + 1)
          bm25_rank := none
          rrf_score := 0 })]
    let acc2 := acc1.modifyEntry docId
      (fun i => { i with rrf_score := i.rrf_score + 1 / (k + rank + 1) })
    processVectorHits k (rank + 1) acc2 rest

/-- The loop over enumerate(bm25_results): insert unseen ids with their
1-based BM25 rank, record the BM25 rank on seen ids, then add the
contribution 1/(k + rank + 1). -/
def processBM25Hits (k : ℚ) : Nat → InfoMap → List SearchHit → InfoMap
  | _, acc, [] => acc
  | rank, acc, hit :: rest =>
    let docId := hit.1
    let md := hit.2.2
    let acc1 := if acc.containsKey docId then
        acc.modifyEntry docId (fun i => { i with bm25_rank := some (rank + 1) })
      else
        acc ++ [(docId,
          { metadata := md
            content := md.getStrD "content" ""
            vector_rank := none
            bm25_rank := some (rank + 1)
            rrf_score := 0 })]
    let acc2 := acc1.modifyEntry docId
      (fun i => { i with rrf_score := i.rrf_score + 1 / (k + rank + 1) })
    processBM25Hits k (rank + 1) acc2 rest

/-- The RetrievedChunk schema (src/schemas/repository.py). -/
structure RetrievedChunk where
  id : String
  content : String
  file_path : String
  start_line : Option Int
  score : ℚ
  metadata : PyDict
deriving DecidableEq

/-- Conversion of a sorted doc_info item to a RetrievedChunk. -/
def toRetrievedChunk (p : String × DocInfo) : RetrievedChunk :=
  { id := p.1
    content := p.2.content
    file_path := p.2.metadata.getStrD "file_path" ""
    start_line := match p.2.metadata.get "start_line" with
      | some (.int i) => some i
      | _ => none
    score := p.2.rrf_score
    metadata := p.2.metadata }

/-- The doc_info dict after both loops. -/
def buildDocInfo (k : ℚ) (vector_results bm25_results : List SearchHit) : InfoMap :=
  processBM25Hits k 0 (processVectorHits k 0 [] vector_results) bm25_results

/-- QueryService._reciprocal_rank_fusion with parameter k (default 60):
build doc_info, sort by descending rrf_score (stable), convert. -/
def _reciprocal_rank_fusion (vector_results bm25_results : List SearchHit)
    (k : ℚ) : List RetrievedChunk :=
  let infos := buildDocInfo k vector_results bm25_results
  let sortedDocs := pySorted (fun a b => decide (b.2.rrf_score ≤ a.2.rrf_score)) infos
  sortedDocs.map toRetrievedChunk

/-- settings.FINAL_CONTEXT_TOP_K default (src/core/config.py). -/
def FINAL_CONTEXT_TOP_K : Nat := 10

/-- Steps 3 and 4 of QueryService._hybrid_retrieval: fuse the two oracle
result lists and keep the first FINAL_CONTEXT_TOP_K chunks. -/
def _hybrid_retrieval (vector_results bm25_results : List SearchHit) :
    List RetrievedChunk :=
  (_reciprocal_rank_fusion vector_results bm25_results 60).take FINAL_CONTEXT_TOP_K

/-! ## Task status and sessions (src/db/models.py)

The TaskStatus enum has exactly five members; there is no PARTIAL_SUCCESS
member, although ingestion_service.py refers to one. -/

inductive TaskStatus where
  | pending
  | processing
  | success
  | failed
  | cancelled
deriving DecidableEq

/-- Python attribute access TaskStatus.NAME on the enum class: some member
for the five defined names, none (AttributeError) otherwise. -/
def TaskStatus.fromName : String → Option TaskStatus
  | "PENDING" => some .pending
  | "PROCESSING" => some .processing
  | "SUCCESS" => some .success
  | "FAILED" => some .failed
  | "CANCELLED" => some .cancelled
  | _ => none

/-- The AnalysisSession fields read by the query path. -/
structure AnalysisSession where
  session_id : String
  repository_url : String
  repository_identifier : Option String
  status : TaskStatus
deriving DecidableEq

/-! ## Query validation and the query task
(src/services/query_service.py, src/worker/tasks.py)

The three regular expressions of _is_likely_repository_url are embedded as
decidable prefix matchers (re.match anchors at the start; a dot does not
match a newline; the dollar also matches before one trailing newline). -/

/-- Matcher for the regex fragment dot-plus slash dot-plus as a prefix:
some slash at index at least 1 of the newline-free prefix, with a
following character. -/
def dotPlusSlashDotPlus (cs : List Char) : Bool :=
  let pre := cs.takeWhile (fun c => !(c == '\n'))
  ((pre.drop 1).dropLast).contains '/'

/-- First pattern: absolute github.com URL followed by owner and name. -/
def likelyUrlPattern1 (cs : List Char) : Bool :=
  if List.isPrefixOf "https://github.com/".toList cs then
    dotPlusSlashDotPlus (cs.drop 19)
  else if List.isPrefixOf "http://github.com/".toList cs then
    dotPlusSlashDotPlus (cs.drop 18)
  else false

/-- Second pattern: github.com without a scheme. -/
def likelyUrlPattern2 (cs : List Char) : Bool :=
  if List.isPrefixOf "github.com/".toList cs then
    dotPlusSlashDotPlus (cs.drop 11)
  else false

/-- Third pattern: anything of the shape owner slash name dot git, anchored
at both ends (one trailing newline tolerated by the dollar anchor). -/
def likelyUrlPattern3 (cs : List Char) : Bool :=
  let core := if cs.getLast? = some '\n' then cs.dropLast else cs
  if List.isSuffixOf ".git".toList core then
    let mid := core.take (core.length - 4)
    (!mid.any (fun c => c == '\n')) && (((mid.drop 1).dropLast).contains '/')
  else false

/-- QueryService._is_likely_repository_url. -/
def _is_likely_repository_url (text : String) : Bool :=
  likelyUrlPattern1 text.toList || likelyUrlPattern2 text.toList ||
    likelyUrlPattern3 text.toList

/-- The url-fallback half of _validate_session_or_repository: when the
input looks like a repository URL, compute its identifier and look for any
SUCCESS session carrying it. -/
def validateAsRepositoryUrl (db : List AnalysisSession) (session_id : String) :
    Except String (Option (AnalysisSession × String)) :=
  if _is_likely_repository_url session_id then
    match generate_repository_identifier session_id with
    | none => .error "ValueError: 生成仓库标识符失败"
    | some rid =>
      match db.find? (fun s =>
          decide (s.repository_identifier = some rid) &&
          decide (s.status = TaskStatus.success)) with
      | some session => .ok (some (session, rid))
      | none => .ok none
  else .ok none

/-- QueryService._validate_session_or_repository: a session id with SUCCESS
status wins, otherwise the input is tried as a repository URL; none means
validation failed, error means an exception escaped to the caller. -/
def _validate_session_or_repository (db : List AnalysisSession)
    (session_id : String) : Except String (Option (AnalysisSession × String)) :=
  match db.find? (fun s => decide (s.session_id = session_id)) with
  | some session =>
    if session.status = TaskStatus.success then
      match generate_repository_identifier session.repository_url with
      | none => .error "ValueError: 生成仓库标识符失败"
      | some rid => .ok (some (session, rid))
    else validateAsRepositoryUrl db session_id
  | none => validateAsRepositoryUrl db session_id

/-- The QueryRequest schema fields the task path reads; llm_config records
whether a config was supplied. -/
structure QueryRequest where
  session_id : String
  question : String
  generation_mode : String
  llm_config : Bool
deriving DecidableEq

/-- The QueryResponse schema (timing fields omitted: wall-clock times are
not modelled). -/
structure QueryResponse where
  answer : Option String
  retrieved_context : Option (List RetrievedChunk)
  generation_mode : Option String
deriving DecidableEq

/-- Outcomes of the external services consulted on the retrieval path:
_vector_search and _bm25_search catch their own errors and return lists;
_generate_answer catches its own errors and returns a string. -/
structure QueryOracles where
  vectorResults : List SearchHit
  bm25Results : List SearchHit
  llmAnswer : String

/-- QueryService.query: validation failure returns a fixed-answer response;
an exception inside the try block is caught and reported in the answer;
otherwise retrieval runs and, in service mode with an llm_config, an
answer is generated. -/
def QueryService.query (db : List AnalysisSession) (oracles : QueryOracles)
    (request : QueryRequest) : QueryResponse :=
  match _validate_session_or_repository db request.session_id with
  | .error e =>
    { answer := some ("查询处理失败: " ++ e)
      retrieved_context := none
      generation_mode := some request.generation_mode }
  | .ok none =>
    { answer := some "会话不存在或分析未完成，或者仓库URL无效"
      retrieved_context := none
      generation_mode := some request.generation_mode }
  | .ok (some _) =>
    let retrieved := _hybrid_retrieval oracles.vectorResults oracles.bm25Results
    if request.generation_mode = "service" && request.llm_config then
      { answer := some oracles.llmAnswer
        retrieved_context := some retrieved
        generation_mode := some request.generation_mode }
    else
      { answer := none
        retrieved_context := some retrieved
        generation_mode := some request.generation_mode }

/-- The dict returned by the process_query Celery task. -/
structure TaskResult where
  success : Bool
  data : Option QueryResponse
  error : Option String
  session_id : String
deriving DecidableEq

/-- worker.tasks.process_query: reconstructing the QueryRequest may raise
(error result); otherwise the query response is wrapped as a success. -/
def process_query (db : List AnalysisSession) (oracles : QueryOracles)
    (session_id : String) (request_data : Except String QueryRequest) :
    TaskResult :=
  match request_data with
  | .error e =>
    { success := false, data := none, error := some e, session_id := session_id }
  | .ok request =>
    { success := true
      data := some (QueryService.query db oracles request)
      error := none
      session_id := session_id }

/-! ## Length-aware chunking (src/utils/ast_parser.py)

The tree-sitter parse itself is external: the syntax units that
_get_syntax_units_for_chunking decodes from the tree are an oracle
parameter (none when the parser is unavailable or raises, which sends
_chunk_large_document to its line-based fallback).  All length
book-keeping below is the literal post-processing code.  Float multiples
of chunk_size are modelled as exact rationals. -/

/-- AstParser._count_non_whitespace_chars. -/
def countNonWs (s : String) : Nat :=
  (s.data.filter (fun c => !c.isWhitespace)).length

/-- Python content.split(newline), at string level. -/
def splitLines (s : String) : List String :=
  (pySplitChar (Char.ofNat 10) s.data).map List.asString

/-- Python str.strip() at string level. -/
def pyStripStr (s : String) : String :=
  (pyStrip s.data).asString

/-- Python str.startswith at string level. -/
def pyStartsWith (s p : String) : Bool :=
  List.isPrefixOf p.data s.data

/-- Python newline.join. -/
def joinNL : List String → String
  | [] => ""
  | [x] => x
  | x :: y :: rest => x ++ "\n" ++ joinNL (y :: rest)

/-- Python double-newline.join. -/
def joinDoubleNL : List String → String
  | [] => ""
  | [x] => x
  | x :: y :: rest => x ++ "\n\n" ++ joinDoubleNL (y :: rest)

/-- The AstParser size configuration (constructor defaults 1000, 200, 100,
2000, 2.5). -/
structure AstConfig where
  chunk_size : Nat
  chunk_overlap : Nat
  min_chunk_size : Nat
  max_chunk_size : Nat
deriving DecidableEq

/-- The AstParser constructor defaults. -/
def defaultAstConfig : AstConfig :=
  { chunk_size := 1000, chunk_overlap := 200, min_chunk_size := 100, max_chunk_size := 2000 }

/-- AstParser._create_chunk_document: copy the original metadata and set the
chunking fields. -/
def _create_chunk_document (content : String) (original_doc : Doc)
    (chunk_index : Nat) : Doc :=
  { page_content := content
    metadata :=
      (((original_doc.metadata.set "is_chunk" (.bool true)).set
          "chunk_index" (.int chunk_index)).set
          "original_element_name"
          (.str (original_doc.metadata.getStrD "element_name" "Unknown"))).set
          "chunk_non_ws_chars" (.int (countNonWs content)) }

/-- Accumulate complete trailing items (taken from the reversed list) while
their total non-whitespace size stays within the overlap budget;
returns the kept items in source order together with their total size. -/
def overlapGo (ov : Nat) : List String → List String → Nat → List String × Nat
  | [], acc, tot => (acc, tot)
  | l :: rest, acc, tot =>
    if tot + countNonWs l ≤ ov then
      overlapGo ov rest (l :: acc) (tot + countNonWs l)
    else (acc, tot)

/-- AstParser._get_overlap_lines. -/
def _get_overlap_lines (cfg : AstConfig) (lines : List String) : List String :=
  if lines.isEmpty || cfg.chunk_overlap = 0 then []
  else (overlapGo cfg.chunk_overlap lines.reverse [] 0).1

/-- The line loop shared by the fallback of _chunk_large_document: flush
when adding the line would pass chunk_size and the current chunk has
reached min_chunk_size, carrying overlap lines into the next chunk. -/
def chunkByLinesGo (cfg : AstConfig) (original_doc : Doc) (baseIdx : Nat) :
    List String → List String → Nat → List Doc → List Doc
  | [], cur, _, chunks =>
    if cur.isEmpty then chunks
    else chunks ++ [_create_chunk_document (joinNL cur) original_doc (baseIdx + chunks.length)]
  | line :: rest, cur, curN, chunks =>
    let ln := countNonWs line
    if curN + ln > cfg.chunk_size ∧ ¬cur.isEmpty ∧ cfg.min_chunk_size ≤ curN then
      let cdoc := _create_chunk_document (joinNL cur) original_doc (baseIdx + chunks.length)
      let ovl := _get_overlap_lines cfg cur
      let cur2 := ovl ++ [line]
      chunkByLinesGo cfg original_doc baseIdx rest cur2 (countNonWs (joinNL cur2))
        (chunks ++ [cdoc])
    else
      chunkByLinesGo cfg original_doc baseIdx rest (cur ++ [line]) (curN + ln) chunks

/-- AstParser._decompose_large_unit: the same line loop, additionally
marking each sub-chunk as a decomposed unit. -/
def decomposeGo (cfg : AstConfig) (original_doc : Doc) (baseIdx : Nat) :
    List String → List String → Nat → List Doc → List Doc
  | [], cur, _, chunks =>
    if cur.isEmpty then chunks
    else
      let d := _create_chunk_document (joinNL cur) original_doc (baseIdx + chunks.length)
      chunks ++ [{ d with metadata := d.metadata.set "is_decomposed_unit" (.bool true) }]
  | line :: rest, cur, curN, chunks =>
    let ln := countNonWs line
    if curN + ln > cfg.chunk_size ∧ ¬cur.isEmpty ∧ cfg.min_chunk_size ≤ curN then
      let d := _create_chunk_document (joinNL cur) original_doc (baseIdx + chunks.length)
      let cdoc := { d with metadata := d.metadata.set "is_decomposed_unit" (.bool true) }
      let ovl := _get_overlap_lines cfg cur
      let cur2 := ovl ++ [line]
      decomposeGo cfg original_doc baseIdx rest cur2 (countNonWs (joinNL cur2))
        (chunks ++ [cdoc])
    else
      decomposeGo cfg original_doc baseIdx rest (cur ++ [line]) (curN + ln) chunks

/-- AstParser._decompose_large_unit entry point. -/
def _decompose_large_unit (cfg : AstConfig) (content : String)
    (original_doc : Doc) (start_chunk_idx : Nat) : List Doc :=
  decomposeGo cfg original_doc start_chunk_idx (splitLines content) [] 0 []

/-- The startswith checks of AstParser._is_major_boundary, in source
order. -/
def majorBoundaryPrefixes : List String :=
  ["class ", "def ", "async def ", "@",
   "class ", "function ", "export ", "import ", "const ", "let ", "var ",
   "public class ", "private class ", "protected class ", "internal class ",
   "public interface ", "public struct ", "public enum ", "public ",
   "private ", "protected ", "namespace ", "using ",
   "func ", "type ", "var ", "const ", "package ", "import ",
   "fn ", "struct ", "enum ", "impl ", "trait ", "mod ", "use ",
   "pub fn ", "pub struct ", "pub enum ", "pub trait ", "pub mod ",
   "class ", "struct ", "namespace ", "template ", "template<",
   "#include ", "#define ", "extern ", "static ", "inline ", "virtual ",
   "public:", "private:", "protected:"]

/-- AstParser._is_major_boundary. -/
def _is_major_boundary (content : String) : Bool :=
  majorBoundaryPrefixes.any (fun p => pyStartsWith (pyStripStr content) p)

/-- The mutable state of the syntax-unit aggregation loop in
_chunk_large_document: current_parts with its running size, the emitted
chunks, and the chunk_idx counter used by flush_chunk. -/
structure ChunkState where
  parts : List String
  partsN : Nat
  chunks : List Doc
  chunkIdx : Nat

/-- flush_chunk: emit the joined current parts and keep a tail of complete
trailing units within chunk_overlap as the next current parts. -/
def flushChunkState (cfg : AstConfig) (original_doc : Doc) (st : ChunkState) :
    ChunkState :=
  if st.parts.isEmpty then st
  else
    let cdoc := _create_chunk_document (joinNL st.parts) original_doc st.chunkIdx
    let ovl := overlapGo cfg.chunk_overlap st.parts.reverse [] 0
    { parts := ovl.1
      partsN := ovl.2
      chunks := st.chunks ++ [cdoc]
      chunkIdx := st.chunkIdx + 1 }

/-- The loop over syntax units in _chunk_large_document: skip blank units,
decompose oversize units, otherwise aggregate with the three flush
conditions (strict size, eighty-percent, major-boundary). -/
def syntaxUnitsGo (cfg : AstConfig) (original_doc : Doc) :
    List String → ChunkState → List Doc
  | [], st =>
    if st.parts.isEmpty then st.chunks
    else st.chunks ++ [_create_chunk_document (joinNL st.parts) original_doc st.chunks.length]
  | unit :: rest, st =>
    let part := pyStripStr unit
    if part.isEmpty then syntaxUnitsGo cfg original_doc rest st
    else
      let partLen := countNonWs part
      if cfg.max_chunk_size < partLen then
        let st1 := if st.parts.isEmpty then st else flushChunkState cfg original_doc st
        let large := _decompose_large_unit cfg part original_doc st1.chunks.length
        syntaxUnitsGo cfg original_doc rest { st1 with chunks := st1.chunks ++ large }
      else
        let shouldChunk := (!st.parts.isEmpty) &&
          ((decide (cfg.chunk_size < st.partsN + partLen) &&
              decide (cfg.min_chunk_size ≤ st.partsN)) ||
           (decide ((cfg.chunk_size : ℚ) * (4/5) ≤ (st.partsN : ℚ)) &&
              decide ((cfg.chunk_size : ℚ) * (6/5) < ((st.partsN + partLen : Nat) : ℚ))) ||
           (decide ((cfg.chunk_size : ℚ) * (3/5) ≤ (st.partsN : ℚ)) &&
              _is_major_boundary part &&
              decide ((cfg.chunk_size : ℚ) * (3/2) < ((st.partsN + partLen : Nat) : ℚ))))
        let st2 := if shouldChunk then flushChunkState cfg original_doc st else st
        syntaxUnitsGo cfg original_doc rest
          { st2 with parts := st2.parts ++ [part], partsN := st2.partsN + partLen }

/-- AstParser._chunk_large_document: syntax-aware aggregation over the
oracle units when available and productive, otherwise the line-based
fallback (an empty unit list models the no_syntax_units exception). -/
def _chunk_large_document (cfg : AstConfig) (units : Option (List String))
    (doc : Doc) : List Doc :=
  match units with
  | some (u :: us) =>
    let out := syntaxUnitsGo cfg doc (u :: us) { parts := [], partsN := 0, chunks := [], chunkIdx := 0 }
    if out.isEmpty then chunkByLinesGo cfg doc 0 (splitLines doc.page_content) [] 0 []
    else out
  | _ => chunkByLinesGo cfg doc 0 (splitLines doc.page_content) [] 0 []

/-- The element_priority table in _merge_small_documents; the dict get
defaults to 5. -/
def elementPriority (et : String) : Nat :=
  if et = "import" then 1
  else if et = "assignment" then 2
  else if et = "function" then 3
  else if et = "decorated_definition" then 3
  else if et = "class" then 4
  else 5

/-- The sort key of _merge_small_documents: priority of the element type,
then start_line, ascending and stable. -/
def mergeSortKeyLe (a b : Doc) : Bool :=
  let pa := elementPriority (a.metadata.getStrD "element_type" "unknown")
  let pb := elementPriority (b.metadata.getStrD "element_type" "unknown")
  let sa := a.metadata.getIntD "start_line" 0
  let sb := b.metadata.getIntD "start_line" 0
  decide (pa < pb) || (decide (pa = pb) && decide (sa ≤ sb))

/-- AstParser._can_merge_documents. -/
def _can_merge_documents (cfg : AstConfig) (current_group : List Doc)
    (new_doc : Doc) : Bool :=
  match current_group.getLast? with
  | none => true
  | some last_doc =>
    let lastType := last_doc.metadata.getStrD "element_type" ""
    let newType := new_doc.metadata.getStrD "element_type" ""
    if lastType = "import" && newType = "import" then true
    else if lastType = "assignment" && newType = "assignment" then true
    else if (lastType = "function" || lastType = "decorated_definition") &&
        (newType = "function" || newType = "decorated_definition") then
      decide (countNonWs last_doc.page_content < cfg.min_chunk_size) &&
        decide (countNonWs new_doc.page_content < cfg.min_chunk_size)
    else false

/-- Python comma-space join (used by json.dumps on a list). -/
def joinCommaSpace : List String → String
  | [] => ""
  | [x] => x
  | x :: y :: rest => x ++ ", " ++ joinCommaSpace (y :: rest)

/-- json.dumps of a list of strings (escaping not modelled: element names
from the sources contain no quotes or backslashes). -/
def jsonDumpsStrings (xs : List String) : String :=
  "[" ++ joinCommaSpace (xs.map (fun s => "\"" ++ s ++ "\"")) ++ "]"

/-- Count occurrences per element type, in first-seen order. -/
def bumpCount (m : List (String × Nat)) (k : String) : List (String × Nat) :=
  if m.any (fun p => p.1 = k) then
    m.map (fun p => if p.1 = k then (p.1, p.2 + 1) else p)
  else m ++ [(k, 1)]

/-- The type_counts dict of _create_merged_document. -/
def typeCountsOf (ts : List String) : List (String × Nat) :=
  ts.foldl bumpCount []

/-- Python max(dict, key=dict.get): the first key whose count no later key
strictly exceeds. -/
def maxCountKey : List (String × Nat) → String
  | [] => "merged"
  | p :: rest => (rest.foldl (fun best q => if best.2 < q.2 then q else best) p).1

/-- AstParser._create_merged_document. -/
def _create_merged_document (docs : List Doc) (file_path language : String) :
    Doc :=
  match docs with
  | [d] => d
  | _ =>
    let contents := docs.map (fun d => d.page_content)
    let merged_content := joinDoubleNL contents
    let element_types := docs.map (fun d => d.metadata.getStrD "element_type" "")
    let element_names := docs.map (fun d => d.metadata.getStrD "element_name" "")
    let counts := typeCountsOf element_types
    let main_type := if counts.isEmpty then "merged" else maxCountKey counts
    let starts := docs.map (fun d => d.metadata.getIntD "start_line" 0)
    let ends := docs.map (fun d => d.metadata.getIntD "end_line" 0)
    { page_content := merged_content
      metadata :=
        [("file_path", .str file_path),
         ("language", .str language),
         ("element_type", .str main_type),
         ("element_name", .str ("merged_" ++ main_type)),
         ("is_merged", .bool true),
         ("merged_count", .int (docs.length : Int)),
         ("merged_elements", .str (jsonDumpsStrings element_names)),
         ("start_line", .int (starts.foldl min (starts.headD 0))),
         ("end_line", .int (ends.foldl max (ends.headD 0))),
         ("merged_non_ws_chars", .int (countNonWs merged_content))] }

/-- The merge loop of _merge_small_documents over the sorted documents:
large documents flush the group and pass through; small documents join the
group while mergeable within chunk_size, else start a new group. -/
def mergeLoopGo (cfg : AstConfig) (file_path language : String) :
    List Doc → List Doc → Nat → List Doc → List Doc
  | [], merged, _, group =>
    if group.isEmpty then merged
    else merged ++ [_create_merged_document group file_path language]
  | doc :: rest, merged, curSize, group =>
    let n := countNonWs doc.page_content
    if cfg.min_chunk_size ≤ n then
      let merged1 := if group.isEmpty then merged
        else merged ++ [_create_merged_document group file_path language]
      mergeLoopGo cfg file_path language rest (merged1 ++ [doc]) 0 []
    else if _can_merge_documents cfg group doc && decide (curSize + n ≤ cfg.chunk_size) then
      mergeLoopGo cfg file_path language rest merged (curSize + n) (group ++ [doc])
    else
      let merged1 := if group.isEmpty then merged
        else merged ++ [_create_merged_document group file_path language]
      mergeLoopGo cfg file_path language rest merged1 n [doc]

/-- AstParser._merge_small_documents. -/
def _merge_small_documents (cfg : AstConfig) (file_path language : String)
    (documents : List Doc) : List Doc :=
  match documents with
  | [] => []
  | _ =>
    let sorted_docs := pySorted mergeSortKeyLe documents
    mergeLoopGo cfg file_path language sorted_docs [] 0 []

/-- AstParser._process_documents_with_chunking: split documents above
max_chunk_size (the per-document syntax units come from the oracle), then
merge small documents. -/
def _process_documents_with_chunking (cfg : AstConfig)
    (units : Doc → Option (List String)) (file_path language : String)
    (documents : List Doc) : List Doc :=
  match documents with
  | [] => []
  | _ =>
    let processed := documents.flatMap (fun d =>
      if cfg.max_chunk_size < countNonWs d.page_content then
        _chunk_large_document cfg (units d) d
      else [d])
    _merge_small_documents cfg file_path language processed

/-- Lowercasing a whole string (Python str.lower, ASCII model). -/
def pyLowerStr (s : String) : String :=
  (pyLower s.toList).asString

/-- The extension-to-language table built from _LANGUAGE_CONFIGS. -/
def extToLanguage (ext : String) : Option String :=
  if ext = ".py" then some "python"
  else if ext = ".js" || ext = ".jsx" || ext = ".mjs" then some "javascript"
  else if ext = ".ts" || ext = ".tsx" then some "typescript"
  else if ext = ".java" then some "java"
  else if ext = ".cpp" || ext = ".cc" || ext = ".cxx" || ext = ".c++" ||
      ext = ".hpp" || ext = ".h" then some "cpp"
  else if ext = ".go" then some "go"
  else if ext = ".rs" then some "rust"
  else if ext = ".cs" then some "csharp"
  else none

/-- os.path.splitext(file_path)[1]: the trailing extension of the basename,
with leading dots of the basename not counted. -/
def fileExtOf (path : String) : String :=
  let base := (path.toList.reverse.takeWhile (fun c => !(c == '/'))).reverse
  let core := base.dropWhile (fun c => c == '.')
  if core.contains '.' then
    ('.' :: (core.reverse.takeWhile (fun c => !(c == '.'))).reverse).asString
  else ""

/-- AstParser._determine_language over the set of initialized parsers:
extension detection wins, then the passed language name. -/
def _determine_language (parsers : List String) (file_path language : String) :
    Option String :=
  match (extToLanguage (pyLowerStr (fileExtOf file_path))).filter
      (fun l => parsers.contains l) with
  | some l => some l
  | none =>
    if parsers.contains (pyLowerStr language) then some (pyLowerStr language)
    else none

/-- AstParser._create_fallback_document: one whole-file document marked
with the error type. -/
def _create_fallback_document (content file_path language error_type : String) :
    List Doc :=
  [{ page_content := content
     metadata :=
       [("file_path", .str file_path),
        ("language", .str language),
        ("element_type", .str "file"),
        (error_type, .bool true)] }]

/-- AstParser.parse_with_ast: unsupported language or a failed parse yields
the whole-file fallback document; otherwise the extracted elements (an
oracle for the tree-sitter walk) are post-processed. -/
def parse_with_ast (cfg : AstConfig) (parsers : List String)
    (extracted : Option (List Doc)) (units : Doc → Option (List String))
    (content file_path language : String) : List Doc :=
  match _determine_language parsers file_path language with
  | none => _create_fallback_document content file_path language "unsupported_language"
  | some _ =>
    match extracted with
    | none => _create_fallback_document content file_path language "ast_parsing_failed"
    | some documents =>
      _process_documents_with_chunking cfg units file_path language documents

/-! ## Ingestion pipeline (src/services/ingestion_service.py)

IngestionService.process_repository calls four repository-keyed methods of
the vector store (check_repository_collection_exists,
count_documents_in_repository_collection, create_repository_collection,
add_documents_to_repository_collection) that are absent from the sources
under src; they are modelled from the spec below.  External outcomes
(embedding config load, clone, file scan, embedding calls, per-batch
storage) are oracle parameters. -/

/-- Modelled from the spec: VectorStore.check_repository_collection_exists
is missing from src (only its caller remains).  Spec 4.G step 3 short-
circuits only when the collection exists and is non-empty, and spec 5
treats a collection as already analyzed only if count is positive, so the
check is existence with a positive document count. -/
def check_repository_collection_exists (st : Store) (repo_identifier : String) :
    Bool :=
  match st.getCollection repo_identifier with
  | some entries => 0 < entries.length
  | none => false

/-- Modelled from the spec: VectorStore.count_documents_in_repository_collection
is missing from src; it reports the collection document count (zero when
absent). -/
def count_documents_in_repository_collection (st : Store)
    (repo_identifier : String) : Nat :=
  ((st.getCollection repo_identifier).getD []).length

/-- Modelled from the spec: VectorStore.create_repository_collection is
missing from src; create_collection is idempotent check-then-create.  A
connection failure (spec error VectorStoreUnavailable) makes it report
False. -/
def create_repository_collection (reachable : Bool) (st : Store)
    (repo_identifier : String) : Bool × Store :=
  if reachable then
    match st.getCollection repo_identifier with
    | some _ => (true, st)
    | none => (true, st.createCollection repo_identifier)
  else (false, st)

/-- Modelled from the spec: VectorStore.add_documents_to_repository_collection
is missing from src; it appends one batch to the repository-keyed
collection with the chunk-id scheme of spec 4.D (ordinals continue from
the current count), reporting False on a storage failure. -/
def add_documents_to_repository_collection (fails : Bool) (st : Store)
    (repo_identifier : String) (docs : List Doc) (embs : List (List ℚ)) :
    Bool × Store :=
  if fails then (false, st)
  else
    match st.getCollection repo_identifier with
    | none => (false, st)
    | some coll =>
      (true, st.setCollection repo_identifier
        (coll ++ mkBatchEntries repo_identifier coll.length (docs.zip embs)))

/-- External outcomes consulted by one process_repository run. -/
structure IngestEnv where
  cfgOk : Bool
  storeReachable : Bool
  cloneOk : Bool
  filesOutcome : Except String (List Doc)
  embedOutcome : Except String (List (List ℚ))
  storeBatchFails : Nat → Bool
  batch_size : Nat

/-- The batch storage loop of
_vectorize_and_store_repository_documents_async: one
add_documents_to_repository_collection call per batch; a failing batch
raises, aborting the remaining batches while earlier batches persist. -/
def vectorizeStoreLoopGo (env : IngestEnv) (repo_identifier : String)
    (bs : Nat) : Nat → Nat → List Doc → List (List ℚ) → Store → Bool × Store
  | 0, _, _, _, st => (true, st)
  | fuel + 1, batchIdx, docs, embs, st =>
    match docs with
    | [] => (true, st)
    | d :: ds =>
      let res := add_documents_to_repository_collection
        (env.storeBatchFails batchIdx) st repo_identifier
        ((d :: ds).take bs) (embs.take bs)
      if res.1 then
        vectorizeStoreLoopGo env repo_identifier bs fuel (batchIdx + 1)
          ((d :: ds).drop bs) (embs.drop bs) res.2
      else (false, res.2)

/-- The batch loop entry point (the fuel bounds the batch count). -/
def vectorizeStoreLoop (env : IngestEnv) (repo_identifier : String) (bs : Nat)
    (batchIdx : Nat) (docs : List Doc) (embs : List (List ℚ))
    (st : Store) : Bool × Store :=
  vectorizeStoreLoopGo env repo_identifier bs docs.length batchIdx docs embs st

/-- IngestionService._vectorize_and_store_repository_documents_async:
embed every document text at once, then store in batches of
batch_size or settings.EMBEDDING_BATCH_SIZE.  Returns whether the phase
succeeded, with the store reflecting every batch written before a
failure. -/
def vectorizeAndStoreAsync (env : IngestEnv) (repo_identifier : String)
    (documents : List Doc) (st : Store) : Bool × Store :=
  if documents.isEmpty then (true, st)
  else
    match env.embedOutcome with
    | .error _ => (false, st)
    | .ok all_embeddings =>
      let bs := if env.batch_size = 0 then EMBEDDING_BATCH_SIZE else env.batch_size
      if bs = 0 then (false, st)
      else vectorizeStoreLoop env repo_identifier bs 0 documents all_embeddings st

/-- The observable outcome of one process_repository run: the final session
status and completion mark, the error message, the vector store state,
whether embed_documents was invoked, and the returned boolean. -/
structure IngestResult where
  status : TaskStatus
  completedAt : Bool
  errorMessage : Option String
  store : Store
  embedDocumentsCalled : Bool
  returnValue : Bool
deriving DecidableEq

/-- Shorthand for the outer except of process_repository: mark the session
FAILED with the message and completion time, return False. -/
def ingestFailed (st : Store) (embedCalled : Bool) (msg : String) : IngestResult :=
  { status := .failed
    completedAt := true
    errorMessage := some msg
    store := st
    embedDocumentsCalled := embedCalled
    returnValue := false }

/-- IngestionService.process_repository.  Phases: identifier, config and
model load, collection check with SUCCESS short-circuit or creation,
clone, file scan, embedding and batched storage, then the final status.
A recorded phase-5 or phase-6 error selects TaskStatus.PARTIAL_SUCCESS by
attribute name; that member does not exist in models.TaskStatus, so the
access raises AttributeError and the outer except marks the session
FAILED. -/
def process_repository (env : IngestEnv) (st : Store) (repo_url : String) :
    IngestResult :=
  match generate_repository_identifier repo_url with
  | none => ingestFailed st false "生成仓库标识符失败"
  | some repo_identifier =>
    if !env.cfgOk then ingestFailed st false "Embedding配置或模型加载失败"
    else if check_repository_collection_exists st repo_identifier then
      { status := .success
        completedAt := true
        errorMessage := none
        store := st
        embedDocumentsCalled := false
        returnValue := true }
    else
      let created := create_repository_collection env.storeReachable st repo_identifier
      if !created.1 then ingestFailed st false "创建仓库向量数据库集合失败"
      else
        let st1 := created.2
        if !env.cloneOk then ingestFailed st1 false "仓库克隆或信息解析失败"
        else
          let filesRes : List Doc × Bool × Option String :=
            match env.filesOutcome with
            | .ok ds => (ds, false, none)
            | .error e => ([], true, some ("文件处理失败: " ++ e))
          let all_documents := filesRes.1
          let storeRes : Store × Bool × Bool :=
            if all_documents.isEmpty then (st1, false, false)
            else
              let r := vectorizeAndStoreAsync env repo_identifier all_documents st1
              (r.2, true, !r.1)
          let st2 := storeRes.1
          let embedCalled := storeRes.2.1
          let error_occurred := filesRes.2.1 || storeRes.2.2
          if error_occurred then
            match TaskStatus.fromName "PARTIAL_SUCCESS" with
            | some s =>
              { status := s
                completedAt := true
                errorMessage := some "任务部分成功"
                store := st2
                embedDocumentsCalled := embedCalled
                returnValue := true }
            | none =>
              ingestFailed st2 embedCalled
                "AttributeError: PARTIAL_SUCCESS is not a member of TaskStatus"
          else
            { status := .success
              completedAt := true
              errorMessage := none
              store := st2
              embedDocumentsCalled := embedCalled
              returnValue := true }


/-- An ingest run in which phases 1-4 succeed, two one-document batches
are to be stored, and the first storage batch fails while the second
would succeed. -/
def exIngestEnv : IngestEnv :=
  { cfgOk := true
    storeReachable := true
    cloneOk := true
    filesOutcome := Except.ok [{ page_content := "a", metadata := [] },
      { page_content := "b", metadata := [] }]
    embedOutcome := Except.ok [[1], [2]]
    storeBatchFails := fun i => decide (i = 0)
    batch_size := 1 }

/-- A short import element, below min_chunk_size. -/
def c7ImpDoc : Doc :=
  { page_content := "import os.e"
    metadata := [("element_type", .str "import"), ("element_name", .str "os.e"),
      ("start_line", .int 1), ("end_line", .int 1)] }

/-- A class element of 150 non-whitespace characters. -/
def c7ClsDoc : Doc :=
  { page_content := (List.replicate 150 'x').asString
    metadata := [("element_type", .str "class"), ("element_name", .str "C"),
      ("start_line", .int 2), ("end_line", .int 2)] }

/-- A document of two six-character lines, for the line-based chunker. -/
def exC7Doc : Doc :=
  { page_content := "aaaaaa\nbbbbbb"
    metadata := [] }

/-- A small chunker configuration exercising the flush condition. -/
def c7Cfg : AstConfig :=
  { chunk_size := 10, chunk_overlap := 3, min_chunk_size := 2, max_chunk_size := 20 }

/-- A store already holding one chunk for the pallets/flask repository
collection. -/
def exC1Store : Store :=
  [("github_pallets_flask_8f5a43fb",
    [{ id := "chunk_github_pallets_flask_8f5a43fb_0", document := "d",
       embedding := [], metadata := [] }])]

/-! ## Rank-based specification views of the RRF fusion

The following definitions restate, directly in terms of positions in the
two input lists, what the two doc_info loops compute; the proofs show the
loops equal to them.  Ranks are recovered through findIdx?, matching the
claims, which speak about rank in the vector and BM25 lists. -/

/-- The 0-based index of the first hit carrying an id, if any. -/
def idIndexIn (id : String) : List SearchHit → Option Nat
  | [] => none
  | h :: t => if h.1 = id then some 0 else (idIndexIn id t).map (fun i => i + 1)

/-- The 1-based rank of a document id in a result list, if present. -/
def rankIn (l : List SearchHit) (id : String) : Option Nat :=
  (idIndexIn id l).map (fun i => i + 1)

/-- The RRF contribution of one list to one document:
1 / (k + rank_in_list) with 1-based ranks, zero when absent. -/
def listContrib (k : ℚ) (l : List SearchHit) (id : String) : ℚ :=
  match idIndexIn id l with
  | some i => 1 / (k + i + 1)
  | none => 0

/-- The doc_info entries created by the vector loop, in list order. -/
def vecEntriesFrom (k : ℚ) : Nat → List SearchHit → InfoMap
  | _, [] => []
  | r, hit :: rest =>
    (hit.1,
      { metadata := hit.2.2
        content := hit.2.2.getStrD "content" ""
        vector_rank := some (r + 1)
        bm25_rank := none
        rrf_score := 0 + 1 / (k + r + 1) }) :: vecEntriesFrom k (r + 1) rest

/-- The effect of the whole BM25 loop on one pre-existing doc_info entry. -/
def bmUpdate (k : ℚ) (r : Nat) (bm : List SearchHit) (p : String × DocInfo) :
    String × DocInfo :=
  match idIndexIn p.1 bm with
  | some j =>
    (p.1, { p.2 with
      bm25_rank := some (r + j + 1)
      rrf_score := p.2.rrf_score + 1 / (k + (r + j) + 1) })
  | none => p

/-- The doc_info entries appended by the BM25 loop: one per BM25 hit whose
id is not already present. -/
def bmAppended (k : ℚ) (existing : String → Bool) : Nat → List SearchHit → InfoMap
  | _, [] => []
  | r, hit :: rest =>
    if existing hit.1 then bmAppended k existing (r + 1) rest
    else
      (hit.1,
        { metadata := hit.2.2
          content := hit.2.2.getStrD "content" ""
          vector_rank := none
          bm25_rank := some (r + 1)
          rrf_score := 0 + 1 / (k + r + 1) }) :: bmAppended k existing (r + 1) rest

/-- Strict comparison on optional ranks, a missing rank coming last. -/
def optRankLt : Option Nat → Option Nat → Prop
  | some i, some j => i < j
  | some _, none => True
  | none, _ => False

/-- The tie-break order of the claim: ascending vector rank, then
ascending BM25 rank, then ascending document id. -/
def tieBreakLt (vec bm : List SearchHit) (id1 id2 : String) : Prop :=
  optRankLt (rankIn vec id1) (rankIn vec id2) ∨
    (rankIn vec id1 = rankIn vec id2 ∧
      (optRankLt (rankIn bm id1) (rankIn bm id2) ∨
        (rankIn bm id1 = rankIn bm id2 ∧ id1 < id2)))

/-- Distinctness of the document ids of a result list. -/
def DistinctIds (l : List SearchHit) : Prop :=
  l.Pairwise (fun a b => a.1 ≠ b.1)

instance DistinctIds.dec (l : List SearchHit) : Decidable (DistinctIds l) :=
  inferInstanceAs (Decidable (l.Pairwise (fun (a b : SearchHit) => a.1 ≠ b.1)))

/-- The vector result list [A, B, C] of the worked example in the spec. -/
def exVec4 : List SearchHit := [("A", 0, []), ("B", 0, []), ("C", 0, [])]

/-- The BM25 result list [B, D, A] of the worked example in the spec. -/
def exBm4 : List SearchHit := [("B", 0, []), ("D", 0, []), ("A", 0, [])]

/-! # Proofs -/

/-! ## List and store helper lemmas -/

theorem zip_take_eq {α β : Type} :
    ∀ (l1 : List α) (l2 : List β) (n : Nat),
      (l1.take n).zip (l2.take n) = (l1.zip l2).take n
  | [], _, _ => by simp
  | _ :: _, [], _ => by simp
  | a :: as, b :: bs, 0 => by simp
  | a :: as, b :: bs, n + 1 => by
    simp only [List.take_succ_cons, List.zip_cons_cons]
    exact congrArg _ (zip_take_eq as bs n)

theorem zip_drop_eq {α β : Type} :
    ∀ (l1 : List α) (l2 : List β) (n : Nat),
      (l1.drop n).zip (l2.drop n) = (l1.zip l2).drop n
  | [], _, _ => by simp
  | _ :: _, [], _ => by simp
  | a :: as, b :: bs, 0 => by simp
  | a :: as, b :: bs, n + 1 => by
    simp only [List.drop_succ_cons, List.zip_cons_cons]
    exact zip_drop_eq as bs n

theorem mkBatchEntries_append (name : String) :
    ∀ (xs ys : List (Doc × List ℚ)) (s : Nat),
      mkBatchEntries name s (xs ++ ys) =
        mkBatchEntries name s xs ++ mkBatchEntries name (s + xs.length) ys
  | [], ys, s => by simp [mkBatchEntries]
  | x :: xs, ys, s => by
    simp only [List.cons_append, mkBatchEntries, List.length_cons, List.append_eq]
    rw [mkBatchEntries_append name xs ys (s + 1)]
    have h1 : s + 1 + xs.length = s + (xs.length + 1) := by omega
    rw [h1]

theorem mkBatchEntries_take_drop (name : String) :
    ∀ (pairs : List (Doc × List ℚ)) (s n : Nat),
      mkBatchEntries name s pairs =
        mkBatchEntries name s (pairs.take n) ++
          mkBatchEntries name (s + n) (pairs.drop n) := by
  intro pairs s n
  rcases le_or_lt pairs.length n with h | h
  · rw [List.take_of_length_le h, List.drop_of_length_le h]
    simp [mkBatchEntries]
  · conv_lhs => rw [← List.take_append_drop n pairs]
    rw [mkBatchEntries_append, List.length_take]
    congr 2
    omega

theorem mkBatchEntries_length (name : String) :
    ∀ (pairs : List (Doc × List ℚ)) (s : Nat),
      (mkBatchEntries name s pairs).length = pairs.length
  | [], _ => rfl
  | p :: ps, s => by
    simp only [mkBatchEntries, List.length_cons]
    exact congrArg (· + 1) (mkBatchEntries_length name ps (s + 1))

theorem mkBatchEntries_map_id (name : String) :
    ∀ (pairs : List (Doc × List ℚ)) (s : Nat),
      (mkBatchEntries name s pairs).map (fun e => e.id) =
        (List.range pairs.length).map (fun j => chunkId name (s + j))
  | [], _ => rfl
  | p :: ps, s => by
    simp only [mkBatchEntries, List.map_cons, List.length_cons,
      List.range_succ_eq_map, List.map_map, Nat.add_zero]
    congr 1
    rw [mkBatchEntries_map_id name ps (s + 1)]
    apply List.map_congr_left
    intro a _
    simp only [Function.comp_apply]
    congr 1
    omega

theorem mkBatchEntries_metadata (name : String) :
    ∀ (pairs : List (Doc × List ℚ)) (s : Nat),
      ∀ e ∈ mkBatchEntries name s pairs,
        ∃ p ∈ pairs, e.metadata = cleanedMetadata p.1
  | [], _, e, he => by simp [mkBatchEntries] at he
  | p :: ps, s, e, he => by
    simp only [mkBatchEntries, List.mem_cons] at he
    rcases he with he | he
    · exact ⟨p, List.mem_cons_self _ _, by rw [he]⟩
    · obtain ⟨q, hq, hm⟩ := mkBatchEntries_metadata name ps (s + 1) e he
      exact ⟨q, List.mem_cons_of_mem _ hq, hm⟩

theorem getCollection_setCollection_self :
    ∀ (st : Store) (name : String) (l entries : List StoredEntry),
      st.getCollection name = some entries →
      (st.setCollection name l).getCollection name = some l
  | [], name, l, entries, h => by simp [Store.getCollection] at h
  | p :: tl, name, l, entries, h => by
    simp only [Store.getCollection, Store.setCollection, List.map_cons] at h ⊢
    by_cases hk : p.1 = name
    · simp [hk]
    · rw [if_neg hk] at h
      rw [if_neg hk, if_neg hk]
      exact getCollection_setCollection_self tl name l entries h

/-! ## Injectivity of the chunk id scheme -/

theorem digitChar_inj_lt10 :
    ∀ a < 10, ∀ b < 10, Nat.digitChar a = Nat.digitChar b → a = b := by
  decide

theorem map_digitChar_inj :
    ∀ (l1 l2 : List Nat), (∀ x ∈ l1, x < 10) → (∀ x ∈ l2, x < 10) →
      l1.map Nat.digitChar = l2.map Nat.digitChar → l1 = l2
  | [], [], _, _, _ => rfl
  | [], _ :: _, _, _, h => by simp at h
  | _ :: _, [], _, _, h => by simp at h
  | a :: as, b :: bs, h1, h2, h => by
    simp only [List.map_cons, List.cons.injEq] at h
    have ha := h1 a (List.mem_cons_self _ _)
    have hb := h2 b (List.mem_cons_self _ _)
    have hab := digitChar_inj_lt10 a ha b hb h.1
    have htl := map_digitChar_inj as bs
      (fun x hx => h1 x (List.mem_cons_of_mem _ hx))
      (fun x hx => h2 x (List.mem_cons_of_mem _ hx)) h.2
    rw [hab, htl]

theorem natToDecAux_eq_digits :
    ∀ (fuel n : Nat), n ≤ fuel →
      natToDecAux fuel n = (Nat.digits 10 n).map Nat.digitChar := by
  intro fuel
  induction fuel with
  | zero =>
    intro n h
    have hn : n = 0 := by omega
    subst hn
    simp [natToDecAux]
  | succ f ih =>
    intro n h
    by_cases hn : n = 0
    · subst hn
      simp [natToDecAux]
    · rw [natToDecAux, if_neg hn]
      rw [Nat.digits_def' (by norm_num : (1:ℕ) < 10) (Nat.pos_of_ne_zero hn)]
      rw [List.map_cons]
      congr 1
      apply ih
      have := Nat.div_lt_self (Nat.pos_of_ne_zero hn) (by norm_num : 1 < 10)
      omega

theorem natToDec_eq_digits (n : Nat) (hn : n ≠ 0) :
    natToDec n = ((Nat.digits 10 n).reverse.map Nat.digitChar).asString := by
  rw [natToDec, if_neg hn, natToDecAux_eq_digits n n le_rfl]
  rw [← List.map_reverse]

theorem natToDec_ne_zero_ne (n : Nat) (hn : n ≠ 0) : natToDec n ≠ natToDec 0 := by
  intro h
  have hz : natToDec 0 = "0" := rfl
  rw [hz] at h
  rw [natToDec_eq_digits n hn] at h
  have h0 : (Nat.digits 10 n).reverse.map Nat.digitChar = ['0'] := by
    rw [← List.toList_asString ((Nat.digits 10 n).reverse.map Nat.digitChar), h]
    rfl
  have : (Nat.digits 10 n).reverse = [0] := by
    apply map_digitChar_inj
    · intro x hx
      exact Nat.digits_lt_base (by norm_num) (List.mem_reverse.mp hx)
    · intro x hx
      simp at hx
      omega
    · simpa using h0
  have hdig : Nat.digits 10 n = [0] := by
    have := congrArg List.reverse this
    simpa using this
  have := Nat.ofDigits_digits 10 n
  rw [hdig] at this
  simp [Nat.ofDigits] at this
  exact hn this.symm

theorem natToDec_inj : ∀ (m n : Nat), natToDec m = natToDec n → m = n := by
  intro m n h
  by_cases hm : m = 0
  · by_cases hn : n = 0
    · rw [hm, hn]
    · exact absurd h.symm (by simpa [hm] using natToDec_ne_zero_ne n hn)
  · by_cases hn : n = 0
    · exact absurd h (by simpa [hn] using natToDec_ne_zero_ne m hm)
    · rw [natToDec_eq_digits m hm, natToDec_eq_digits n hn] at h
      have hl := List.asString_inj.mp h
      have hmap := map_digitChar_inj _ _
        (fun x hx => Nat.digits_lt_base (by norm_num) (List.mem_reverse.mp hx))
        (fun x hx => Nat.digits_lt_base (by norm_num) (List.mem_reverse.mp hx)) hl
      have := List.reverse_injective hmap
      exact Nat.digits_inj_iff.mp this

theorem string_append_cancel_left (s a b : String) (h : s ++ a = s ++ b) : a = b := by
  have hd : s.data ++ a.data = s.data ++ b.data := congrArg String.data h
  have h2 := List.append_cancel_left hd
  calc a = String.mk a.data := rfl
    _ = String.mk b.data := congrArg String.mk h2
    _ = b := rfl

theorem chunkId_inj (name : String) (k1 k2 : Nat)
    (h : chunkId name k1 = chunkId name k2) : k1 = k2 := by
  apply natToDec_inj
  simp only [chunkId] at h
  have h1 : ("chunk_" ++ name ++ "_") ++ natToDec k1 =
      ("chunk_" ++ name ++ "_") ++ natToDec k2 := by
    simpa [String.append_assoc] using h
  exact string_append_cancel_left _ _ _ h1

/-! ## Behaviour of add_documents_to_collection -/

theorem addBatchesLoop_noFail (name : String) :
    ∀ (docs : List Doc) (embs : List (List ℚ)) (bs s c : Nat) (hbs : 0 < bs),
      docs.length = embs.length →
      addBatchesLoop noFailEnv name docs embs bs s c hbs =
        (true, mkBatchEntries name s (docs.zip embs))
  | [], embs, bs, s, c, hbs, h => by
    simp [addBatchesLoop, mkBatchEntries]
  | d :: ds, embs, bs, s, c, hbs, h => by
    rw [addBatchesLoop]
    have hlen : ((d :: ds).take bs).length = (embs.take bs).length := by
      simp [List.length_take, h]
    have hrec := addBatchesLoop_noFail name ((d :: ds).drop bs) (embs.drop bs)
      bs (s + bs) (c + 1) hbs (by simp [h])
    rw [if_neg (not_ne_iff.mpr hlen), if_neg (by simp [noFailEnv]), hrec]
    rw [zip_take_eq, zip_drop_eq]
    dsimp only
    rw [← mkBatchEntries_take_drop]
termination_by docs _ _ _ _ _ => docs.length
decreasing_by
  simp only [List.length_drop, List.length_cons]
  omega

theorem addBatchesLoop_true_noCallFail (env : ChromaEnv) (name : String) :
    ∀ (docs : List Doc) (embs : List (List ℚ)) (bs s c : Nat) (hbs : 0 < bs),
      (addBatchesLoop env name docs embs bs s c hbs).1 = true →
      ∀ i, i * bs < docs.length → env.addCallFails (c + i) = false
  | [], embs, bs, s, c, hbs, ht, i, hi => by
    simp at hi
  | d :: ds, embs, bs, s, c, hbs, ht, i, hi => by
    rw [addBatchesLoop] at ht
    by_cases hlen : ((d :: ds).take bs).length ≠ (embs.take bs).length
    · rw [if_pos hlen] at ht
      exact absurd ht (by simp)
    · rw [if_neg hlen] at ht
      by_cases hf : env.addCallFails c = true
      · rw [if_pos hf] at ht
        exact absurd ht (by simp)
      · rw [if_neg hf] at ht
        match i with
        | 0 =>
          simp only [Nat.add_zero]
          simpa using hf
        | i' + 1 =>
          have hrec := addBatchesLoop_true_noCallFail env name
            ((d :: ds).drop bs) (embs.drop bs) bs (s + bs) (c + 1) hbs
            (by simpa using ht) i'
            (by
              have hexp : (i' + 1) * bs = i' * bs + bs := by ring
              simp only [List.length_drop, List.length_cons]
              simp only [List.length_cons] at hi
              rw [hexp] at hi
              omega)
          have harith : c + (i' + 1) = c + 1 + i' := by omega
          rw [harith]
          exact hrec
termination_by docs _ _ _ _ _ => docs.length
decreasing_by
  simp only [List.length_drop, List.length_cons]
  omega

theorem add_documents_noFail (st : Store) (name : String) (docs : List Doc)
    (embs : List (List ℚ)) (b : Option Nat) (coll : List StoredEntry)
    (hcoll : st.getCollection name = some coll)
    (hlen : docs.length = embs.length) :
    add_documents_to_collection noFailEnv st name docs embs b =
      (true, st.setCollection name
        (coll ++ mkBatchEntries name coll.length (docs.zip embs))) := by
  have hg : noFailEnv.getCollectionFails = false := rfl
  have hc : noFailEnv.countFails = false := rfl
  rw [add_documents_to_collection.eq_def]
  rw [if_neg (by simp [hg]), hcoll]
  have hbs : (match b with
      | some x => if x = 0 then EMBEDDING_BATCH_SIZE else x
      | none => EMBEDDING_BATCH_SIZE) ≠ 0 := by
    match b with
    | none => simp [EMBEDDING_BATCH_SIZE]
    | some x =>
      by_cases hx : x = 0
      · simp [hx, EMBEDDING_BATCH_SIZE]
      · simp [hx]
  dsimp only
  rw [dif_neg hbs]
  rw [if_neg (by simp [hc])]
  rw [addBatchesLoop_noFail name docs embs _ coll.length 0
    (Nat.pos_of_ne_zero hbs) hlen]

theorem cleanedMetadata_scalar (d : Doc) :
    ∀ p ∈ cleanedMetadata d, p.2.isScalar = true := by
  intro p hp
  simp only [cleanedMetadata, List.mem_map] at hp
  obtain ⟨q, _, hq⟩ := hp
  rw [← hq]
  cases q.2 <;> rfl

theorem addBatchesLoop_metadata (env : ChromaEnv) (name : String) :
    ∀ (docs : List Doc) (embs : List (List ℚ)) (bs s c : Nat) (hbs : 0 < bs),
      ∀ e ∈ (addBatchesLoop env name docs embs bs s c hbs).2,
        ∃ d ∈ docs, e.metadata = cleanedMetadata d
  | [], embs, bs, s, c, hbs, e, he => by
    simp [addBatchesLoop] at he
  | d :: ds, embs, bs, s, c, hbs, e, he => by
    rw [addBatchesLoop] at he
    by_cases hlen : ((d :: ds).take bs).length ≠ (embs.take bs).length
    · rw [if_pos hlen] at he
      simp at he
    · rw [if_neg hlen] at he
      by_cases hf : env.addCallFails c = true
      · rw [if_pos hf] at he
        simp at he
      · rw [if_neg hf] at he
        simp only [List.mem_append] at he
        rcases he with he | he
        · obtain ⟨p, hp, hm⟩ := mkBatchEntries_metadata name _ s e he
          refine ⟨p.1, ?_, hm⟩
          have hz : p ∈ ((d :: ds).zip embs).take bs := by
            rw [← zip_take_eq]
            exact hp
          exact (List.of_mem_zip (List.mem_of_mem_take hz)).1
        · obtain ⟨q, hq, hm⟩ := addBatchesLoop_metadata env name
            ((d :: ds).drop bs) (embs.drop bs) bs (s + bs) (c + 1) hbs e he
          exact ⟨q, List.mem_of_mem_drop hq, hm⟩
termination_by docs _ _ _ _ _ => docs.length
decreasing_by
  simp only [List.length_drop, List.length_cons]
  omega

/-- Claim C8: when documents are appended to a collection, the j-th new
document receives id chunk_ name _ (existing_count + j) with existing_count
the collection count read before the append; for two successive ingests
into the same collection the two sets of generated chunk ids are
disjoint. -/
theorem c8_append_ids_disjoint
    (st : Store) (name : String) (docs1 docs2 : List Doc)
    (embs1 embs2 : List (List ℚ)) (b1 b2 : Option Nat) (coll : List StoredEntry)
    (hcoll : st.getCollection name = some coll)
    (hlen1 : docs1.length = embs1.length) (hlen2 : docs2.length = embs2.length) :
    ∃ new1 new2 : List StoredEntry,
      (add_documents_to_collection noFailEnv st name docs1 embs1 b1).2.getCollection name
        = some (coll ++ new1) ∧
      new1.map (fun e => e.id)
        = (List.range docs1.length).map (fun j => chunkId name (coll.length + j)) ∧
      (add_documents_to_collection noFailEnv
          (add_documents_to_collection noFailEnv st name docs1 embs1 b1).2
          name docs2 embs2 b2).2.getCollection name
        = some (coll ++ new1 ++ new2) ∧
      new2.map (fun e => e.id)
        = (List.range docs2.length).map
            (fun j => chunkId name ((coll ++ new1).length + j)) ∧
      ∀ i1 ∈ new1.map (fun e => e.id), ∀ i2 ∈ new2.map (fun e => e.id), i1 ≠ i2 := by
  have h1 := add_documents_noFail st name docs1 embs1 b1 coll hcoll hlen1
  set new1 := mkBatchEntries name coll.length (docs1.zip embs1) with hnew1
  have hget1 : (add_documents_to_collection noFailEnv st name docs1 embs1 b1).2.getCollection name
      = some (coll ++ new1) := by
    rw [h1]
    exact getCollection_setCollection_self st name _ coll hcoll
  have h2 := add_documents_noFail _ name docs2 embs2 b2 (coll ++ new1) hget1 hlen2
  set new2 := mkBatchEntries name (coll ++ new1).length (docs2.zip embs2) with hnew2
  have hget2 : (add_documents_to_collection noFailEnv
      (add_documents_to_collection noFailEnv st name docs1 embs1 b1).2
      name docs2 embs2 b2).2.getCollection name = some (coll ++ new1 ++ new2) := by
    rw [h2]
    have := getCollection_setCollection_self _ name ((coll ++ new1) ++ new2) (coll ++ new1) hget1
    rw [this]
  have hzlen1 : (docs1.zip embs1).length = docs1.length := by
    rw [List.length_zip, hlen1, Nat.min_self]
  have hzlen2 : (docs2.zip embs2).length = docs2.length := by
    rw [List.length_zip, hlen2, Nat.min_self]
  have hnew1len : new1.length = docs1.length := by
    rw [hnew1, mkBatchEntries_length, hzlen1]
  have hid1 : new1.map (fun e => e.id)
      = (List.range docs1.length).map (fun j => chunkId name (coll.length + j)) := by
    rw [hnew1, mkBatchEntries_map_id, hzlen1]
  have hid2 : new2.map (fun e => e.id)
      = (List.range docs2.length).map
          (fun j => chunkId name ((coll ++ new1).length + j)) := by
    rw [hnew2, mkBatchEntries_map_id, hzlen2]
  refine ⟨new1, new2, hget1, hid1, hget2, hid2, ?_⟩
  intro i1 hi1 i2 hi2 heq
  rw [hid1] at hi1
  rw [hid2] at hi2
  simp only [List.mem_map, List.mem_range] at hi1 hi2
  obtain ⟨j1, hj1, hi1e⟩ := hi1
  obtain ⟨j2, hj2, hi2e⟩ := hi2
  rw [← hi1e, ← hi2e] at heq
  have := chunkId_inj name _ _ heq
  rw [List.length_append, hnew1len] at this
  omega

/-- Claim C9: every value stored by add_documents_to_collection is a
scalar; the sanitizer turns None into the empty string, keeps scalars
unchanged, and replaces every other value by its string encoding. -/
theorem c9_metadata_scalar :
    (∀ (env : ChromaEnv) (st : Store) (name : String) (docs : List Doc)
        (embs : List (List ℚ)) (b : Option Nat) (coll coll2 : List StoredEntry),
      st.getCollection name = some coll →
      (add_documents_to_collection env st name docs embs b).2.getCollection name
        = some coll2 →
      ∀ e ∈ coll2, e ∈ coll ∨
        ((∃ d ∈ docs, e.metadata = cleanedMetadata d) ∧
          ∀ p ∈ e.metadata, p.2.isScalar = true)) ∧
    sanitizeValue PyValue.none = PyValue.str "" ∧
    (∀ v : PyValue, v.isScalar = true → sanitizeValue v = v) ∧
    (∀ s : String, sanitizeValue (PyValue.other s) = PyValue.str s) := by
  refine ⟨?_, rfl, ?_, fun _ => rfl⟩
  · intro env st name docs embs b coll coll2 hcoll hcoll2 e he
    rw [add_documents_to_collection.eq_def] at hcoll2
    by_cases hgf : env.getCollectionFails = true
    · rw [if_pos hgf] at hcoll2
      rw [hcoll] at hcoll2
      cases hcoll2
      exact Or.inl he
    · rw [if_neg hgf, hcoll] at hcoll2
      dsimp only at hcoll2
      by_cases hbs : (match b with
          | some x => if x = 0 then EMBEDDING_BATCH_SIZE else x
          | none => EMBEDDING_BATCH_SIZE) = 0
      · rw [dif_pos hbs, hcoll] at hcoll2
        cases hcoll2
        exact Or.inl he
      · rw [dif_neg hbs] at hcoll2
        have hset := getCollection_setCollection_self st name
          (coll ++ (addBatchesLoop env name docs embs _
            (if env.countFails = true then 0 else coll.length) 0
            (Nat.pos_of_ne_zero hbs)).2) coll hcoll
        rw [hset] at hcoll2
        cases hcoll2
        rcases List.mem_append.mp he with hm | hm
        · exact Or.inl hm
        · obtain ⟨d, hd, hmeta⟩ := addBatchesLoop_metadata env name docs embs _
            _ 0 (Nat.pos_of_ne_zero hbs) e hm
          refine Or.inr ⟨⟨d, hd, hmeta⟩, ?_⟩
          rw [hmeta]
          exact cleanedMetadata_scalar d
  · intro v hv
    cases v <;> first | rfl | simp [PyValue.isScalar] at hv

/-- Claim C10: the adapter operations never propagate failures:
query_collection returns the empty result structure, get_all_documents
returns the empty list, and add_documents_to_collection reports success
only when no underlying call failed (so any internal failure yields
False). -/
theorem c10_adapter_swallows_failures :
    (∀ (env : ChromaEnv) (st : Store) (name : String) (emb : List ℚ) (n : Nat),
      env.getCollectionFails = true ∨ st.getCollection name = none ∨
        (∃ e, env.queryOutcome = Except.error e) →
      query_collection env st name emb n = emptyQueryResult) ∧
    (∀ (env : ChromaEnv) (st : Store) (name : String),
      env.getCollectionFails = true ∨ st.getCollection name = none ∨
        env.getAllFails = true →
      get_all_documents_from_collection env st name = []) ∧
    (∀ (env : ChromaEnv) (st : Store) (name : String) (docs : List Doc)
        (embs : List (List ℚ)) (b : Option Nat),
      (add_documents_to_collection env st name docs embs b).1 = true →
      env.getCollectionFails = false ∧ st.getCollection name ≠ none ∧
        (∀ i bs, bs = (match b with
            | some x => if x = 0 then EMBEDDING_BATCH_SIZE else x
            | none => EMBEDDING_BATCH_SIZE) →
          i * bs < docs.length → env.addCallFails i = false)) := by
  refine ⟨?_, ?_, ?_⟩
  · intro env st name emb n h
    rw [query_collection]
    rcases h with h | h | ⟨e, h⟩
    · rw [if_pos h]
    · by_cases hgf : env.getCollectionFails = true
      · rw [if_pos hgf]
      · rw [if_neg hgf, h]
    · by_cases hgf : env.getCollectionFails = true
      · rw [if_pos hgf]
      · rw [if_neg hgf]
        cases hg : st.getCollection name with
        | none => rfl
        | some coll => rw [h]
  · intro env st name h
    rw [get_all_documents_from_collection]
    rcases h with h | h | h
    · rw [if_pos h]
    · by_cases hgf : env.getCollectionFails = true
      · rw [if_pos hgf]
      · rw [if_neg hgf, h]
    · by_cases hgf : env.getCollectionFails = true
      · rw [if_pos hgf]
      · rw [if_neg hgf]
        cases hg : st.getCollection name with
        | none => rfl
        | some coll => simp [h]
  · intro env st name docs embs b ht
    rw [add_documents_to_collection.eq_def] at ht
    by_cases hgf : env.getCollectionFails = true
    · rw [if_pos hgf] at ht
      exact absurd ht (by simp)
    · rw [if_neg hgf] at ht
      refine ⟨by simpa using hgf, ?_, ?_⟩
      · cases hg : st.getCollection name with
        | none =>
          rw [hg] at ht
          exact absurd ht (by simp)
        | some coll => simp
      · intro i bs hbsdef hi
        cases hg : st.getCollection name with
        | none =>
          rw [hg] at ht
          exact absurd ht (by simp)
        | some coll =>
          rw [hg] at ht
          dsimp only at ht
          by_cases hbz : (match b with
              | some x => if x = 0 then EMBEDDING_BATCH_SIZE else x
              | none => EMBEDDING_BATCH_SIZE) = 0
          · rw [dif_pos hbz] at ht
            exact absurd ht (by simp)
          · rw [dif_neg hbz] at ht
            have := addBatchesLoop_true_noCallFail env name docs embs _
              (if env.countFails = true then 0 else coll.length) 0
              (Nat.pos_of_ne_zero hbz) ht i (by rw [hbsdef] at hi; exact hi)
            simpa using this

/-- Witness for C8 at a concrete store: the first ids of two successive
appends differ. -/
theorem c8_append_ids_disjoint_witness : ("chunk_c_0" : String) ≠ "chunk_c_1" := by
  obtain ⟨new1, new2, hget1, hid1, hget2, hid2, hdisj⟩ :=
    c8_append_ids_disjoint [("c", [])] "c"
      [{ page_content := "x", metadata := [] }]
      [{ page_content := "y", metadata := [] }]
      [[1]] [[2]] (some 32) (some 32) [] rfl rfl rfl
  apply hdisj
  · rw [hid1]
    decide
  · rw [hid2]
    have hlen : (([] : List StoredEntry) ++ new1).length = 1 := by
      have := congrArg List.length hid1
      simpa using this
    rw [hlen]
    decide

/-- Witness for C9: a scalar value is kept unchanged by the sanitizer. -/
theorem c9_metadata_scalar_witness :
    PyValue.isScalar (PyValue.int 5) = true ∧
      sanitizeValue (PyValue.int 5) = PyValue.int 5 :=
  ⟨by decide, c9_metadata_scalar.2.2.1 (PyValue.int 5) (by decide)⟩

/-- Witness for C10: an unreachable client yields the empty query result. -/
theorem c10_adapter_swallows_failures_witness :
    query_collection
      { getCollectionFails := true, countFails := false,
        addCallFails := fun _ => false,
        queryOutcome := Except.ok emptyQueryResult, getAllFails := false }
      [] "c" [] 10 = emptyQueryResult :=
  c10_adapter_swallows_failures.1 _ [] "c" [] 10 (Or.inl rfl)

/-- Claim C6, counterexample: a query task whose session_id matches no
AnalysisSession and is no repository URL returns success true with no
error field, not the claimed success false with error SessionNotFound. -/
theorem c6_counterexample :
    (process_query [] ⟨[], [], ""⟩ "nonexistent"
        (Except.ok ⟨"nonexistent", "q", "service", false⟩)).success = true ∧
    (process_query [] ⟨[], [], ""⟩ "nonexistent"
        (Except.ok ⟨"nonexistent", "q", "service", false⟩)).error = none := by
  constructor <;> rfl

/-- Claim C6, amended: when validation fails (no SUCCESS session by id and
no SUCCESS session via the repository-URL fallback), the task result still
has success true and no error field; the failure is only reported inside
the wrapped QueryResponse answer, and no SessionNotFound error result
exists in the code. -/
theorem c6_validation_failure_result
    (db : List AnalysisSession) (oracles : QueryOracles) (taskSid : String)
    (request : QueryRequest)
    (hval : _validate_session_or_repository db request.session_id = Except.ok none ∨
      ∃ e, _validate_session_or_repository db request.session_id = Except.error e) :
    (process_query db oracles taskSid (Except.ok request)).success = true ∧
    (process_query db oracles taskSid (Except.ok request)).error = none ∧
    ∃ msg,
      (process_query db oracles taskSid (Except.ok request)).data =
        some { answer := some msg, retrieved_context := none,
               generation_mode := some request.generation_mode } ∧
      (msg = "会话不存在或分析未完成，或者仓库URL无效" ∨
        ∃ e, msg = "查询处理失败: " ++ e) := by
  rw [process_query]
  refine ⟨rfl, rfl, ?_⟩
  rcases hval with h | ⟨e, h⟩
  · exact ⟨_, by rw [QueryService.query, h], Or.inl rfl⟩
  · exact ⟨_, by rw [QueryService.query, h], Or.inr ⟨e, rfl⟩⟩

/-- Witness for the amended C6 at an empty session table. -/
theorem c6_validation_failure_result_witness :
    (process_query [] ⟨[], [], ""⟩ "nonexistent"
        (Except.ok ⟨"nonexistent", "q", "plugin", false⟩)).success = true ∧
    (process_query [] ⟨[], [], ""⟩ "nonexistent"
        (Except.ok ⟨"nonexistent", "q", "plugin", false⟩)).error = none := by
  have h := c6_validation_failure_result [] ⟨[], [], ""⟩ "nonexistent"
    ⟨"nonexistent", "q", "plugin", false⟩ (Or.inl rfl)
  exact ⟨h.1, h.2.1⟩

/-! ## doc_info dictionary lemmas -/

theorem containsKey_append (a b : InfoMap) (id : String) :
    (a ++ b).containsKey id = (a.containsKey id || b.containsKey id) := by
  simp [InfoMap.containsKey, List.any_append]

theorem containsKey_false_iff (m : InfoMap) (id : String) :
    m.containsKey id = false ↔ ∀ p ∈ m, p.1 ≠ id := by
  simp [InfoMap.containsKey, List.any_eq_false]

theorem modifyEntry_append (a b : InfoMap) (id : String) (f : DocInfo → DocInfo) :
    (a ++ b).modifyEntry id f = a.modifyEntry id f ++ b.modifyEntry id f := by
  simp [InfoMap.modifyEntry, List.map_append]

theorem modifyEntry_not_mem (m : InfoMap) (id : String) (f : DocInfo → DocInfo)
    (h : m.containsKey id = false) : m.modifyEntry id f = m := by
  rw [containsKey_false_iff] at h
  unfold InfoMap.modifyEntry
  conv_rhs => rw [← List.map_id m]
  apply List.map_congr_left
  intro p hp
  rw [if_neg (h p hp)]
  rfl

theorem modifyEntry_modifyEntry (m : InfoMap) (id : String)
    (f g : DocInfo → DocInfo) :
    (m.modifyEntry id f).modifyEntry id g = m.modifyEntry id (fun e => g (f e)) := by
  unfold InfoMap.modifyEntry
  rw [List.map_map]
  apply List.map_congr_left
  intro p _
  by_cases hp : p.1 = id
  · simp [hp]
  · simp [Function.comp_apply, hp]

theorem containsKey_modifyEntry (m : InfoMap) (id id2 : String)
    (f : DocInfo → DocInfo) :
    (m.modifyEntry id f).containsKey id2 = m.containsKey id2 := by
  unfold InfoMap.modifyEntry InfoMap.containsKey
  rw [List.any_map]
  congr 1
  funext p
  by_cases hp : p.1 = id
  · simp [hp]
  · simp [hp]

theorem containsKey_append_single (m : InfoMap) (e : DocInfo) (id x : String) :
    (m ++ [(id, e)]).containsKey x = (m.containsKey x || decide (id = x)) := by
  simp [InfoMap.containsKey, List.any_append]

theorem bmAppended_congr (k : ℚ) (ex1 ex2 : String → Bool) :
    ∀ (bm : List SearchHit) (r : Nat),
      (∀ h ∈ bm, ex1 h.1 = ex2 h.1) →
      bmAppended k ex1 r bm = bmAppended k ex2 r bm
  | [], _, _ => rfl
  | hit :: rest, r, h => by
    have hhd := h hit (List.mem_cons_self _ _)
    have htl := bmAppended_congr k ex1 ex2 rest (r + 1)
      (fun x hx => h x (List.mem_cons_of_mem _ hx))
    rw [bmAppended, bmAppended, hhd, htl]

/-! ## Characterization of the two doc_info loops -/

theorem processVectorHits_char (k : ℚ) :
    ∀ (vec : List SearchHit) (r : Nat) (acc : InfoMap),
      (∀ h ∈ vec, acc.containsKey h.1 = false) → DistinctIds vec →
      processVectorHits k r acc vec = acc ++ vecEntriesFrom k r vec
  | [], r, acc, _, _ => by simp [processVectorHits, vecEntriesFrom]
  | hit :: rest, r, acc, hacc, hdist => by
    have hc : acc.containsKey hit.1 = false := hacc hit (List.mem_cons_self _ _)
    rw [processVectorHits]
    simp only [hc, Bool.false_eq_true, if_false]
    rw [modifyEntry_append, modifyEntry_not_mem acc hit.1 _ hc]
    have hone : InfoMap.modifyEntry [(hit.1,
        ({ metadata := hit.2.2
           content := hit.2.2.getStrD "content" ""
           vector_rank := some (r + 1)
           bm25_rank := none
           rrf_score := 0 } : DocInfo))] hit.1
        (fun i => { i with rrf_score := i.rrf_score + 1 / (k + r + 1) }) =
        [(hit.1,
          { metadata := hit.2.2
            content := hit.2.2.getStrD "content" ""
            vector_rank := some (r + 1)
            bm25_rank := none
            rrf_score := 0 + 1 / (k + r + 1) })] := by
      simp [InfoMap.modifyEntry]
    rw [hone]
    have hdist2 : DistinctIds rest := (List.pairwise_cons.mp hdist).2
    have hhd : ∀ h ∈ rest, hit.1 ≠ h.1 := (List.pairwise_cons.mp hdist).1
    have hacc2 : ∀ h ∈ rest,
        (acc ++ [(hit.1,
          ({ metadata := hit.2.2
             content := hit.2.2.getStrD "content" ""
             vector_rank := some (r + 1)
             bm25_rank := none
             rrf_score := 0 + 1 / (k + r + 1) } : DocInfo))]).containsKey h.1 = false := by
      intro h hh
      rw [containsKey_append_single]
      simp only [Bool.or_eq_false_iff]
      exact ⟨hacc h (List.mem_cons_of_mem _ hh), by simp [hhd h hh]⟩
    rw [processVectorHits_char k rest (r + 1) _ hacc2 hdist2]
    rw [vecEntriesFrom]
    simp

theorem idIndexIn_eq_none (id : String) :
    ∀ (l : List SearchHit), (∀ h ∈ l, h.1 ≠ id) → idIndexIn id l = none
  | [], _ => rfl
  | h :: t, hall => by
    rw [idIndexIn, if_neg (hall h (List.mem_cons_self _ _)),
      idIndexIn_eq_none id t (fun x hx => hall x (List.mem_cons_of_mem _ hx))]
    rfl

theorem bmUpdate_shift (k : ℚ) (r : Nat) (hit : SearchHit) (rest : List SearchHit)
    (p : String × DocInfo) (hne : p.1 ≠ hit.1) :
    bmUpdate k r (hit :: rest) p = bmUpdate k (r + 1) rest p := by
  unfold bmUpdate
  rw [idIndexIn, if_neg (fun h => hne h.symm)]
  cases hj : idIndexIn p.1 rest with
  | none => rfl
  | some j =>
    simp only [Option.map_some']
    have h1 : r + (j + 1) = r + 1 + j := by omega
    have h2 : (r : ℚ) + ((j : ℚ) + 1) = ((r : ℚ) + 1) + (j : ℚ) := by ring
    rw [h1]
    push_cast
    rw [h2]

theorem processBM25Hits_char (k : ℚ) :
    ∀ (bm : List SearchHit) (r : Nat) (acc : InfoMap),
      DistinctIds bm →
      processBM25Hits k r acc bm =
        acc.map (bmUpdate k r bm) ++ bmAppended k acc.containsKey r bm
  | [], r, acc, _ => by
    rw [processBM25Hits, bmAppended, List.append_nil]
    conv_lhs => rw [← List.map_id acc]
    exact List.map_congr_left (fun p _ => rfl)
  | hit :: rest, r, acc, hdist => by
    have hdist2 : DistinctIds rest := (List.pairwise_cons.mp hdist).2
    have hhd : ∀ h ∈ rest, hit.1 ≠ h.1 := (List.pairwise_cons.mp hdist).1
    have hnone : idIndexIn hit.1 rest = none :=
      idIndexIn_eq_none hit.1 rest (fun h hh => Ne.symm (hhd h hh))
    rw [processBM25Hits]
    by_cases hc : acc.containsKey hit.1 = true
    · simp only [hc, eq_self_iff_true, if_true]
      rw [processBM25Hits_char k rest (r + 1) _ hdist2]
      have hmap : ((acc.modifyEntry hit.1
              (fun i => { i with bm25_rank := some (r + 1) })).modifyEntry hit.1
              (fun i => { i with rrf_score := i.rrf_score + 1 / (k + r + 1) })).map
            (bmUpdate k (r + 1) rest) =
          acc.map (bmUpdate k r (hit :: rest)) := by
        rw [modifyEntry_modifyEntry]
        unfold InfoMap.modifyEntry
        rw [List.map_map]
        apply List.map_congr_left
        intro p _
        simp only [Function.comp_apply]
        by_cases hp : p.1 = hit.1
        · rw [if_pos hp]
          unfold bmUpdate
          rw [hp, hnone, idIndexIn, if_pos rfl]
          simp
        · rw [if_neg hp]
          exact (bmUpdate_shift k r hit rest p hp).symm
      have hck : ∀ h ∈ rest,
          ((acc.modifyEntry hit.1
              (fun i => { i with bm25_rank := some (r + 1) })).modifyEntry hit.1
              (fun i => { i with rrf_score := i.rrf_score + 1 / (k + r + 1) })).containsKey
            h.1 = acc.containsKey h.1 := by
        intro h _
        rw [containsKey_modifyEntry, containsKey_modifyEntry]
      rw [hmap, bmAppended_congr k _ _ rest (r + 1) hck]
      conv_rhs => rw [bmAppended]
      rw [if_pos hc]
    · have hcf : acc.containsKey hit.1 = false := Bool.eq_false_iff.mpr hc
      have hall : ∀ p ∈ acc, p.1 ≠ hit.1 := (containsKey_false_iff acc hit.1).mp hcf
      simp only [hcf, Bool.false_eq_true, if_false]
      rw [modifyEntry_append, modifyEntry_not_mem acc hit.1 _ hcf]
      have hone : InfoMap.modifyEntry [(hit.1,
          ({ metadata := hit.2.2
             content := hit.2.2.getStrD "content" ""
             vector_rank := none
             bm25_rank := some (r + 1)
             rrf_score := 0 } : DocInfo))] hit.1
          (fun i => { i with rrf_score := i.rrf_score + 1 / (k + r + 1) }) =
          [(hit.1,
            ({ metadata := hit.2.2
               content := hit.2.2.getStrD "content" ""
               vector_rank := none
               bm25_rank := some (r + 1)
               rrf_score := 0 + 1 / (k + r + 1) } : DocInfo))] := by
        simp [InfoMap.modifyEntry]
      rw [hone]
      rw [processBM25Hits_char k rest (r + 1) _ hdist2]
      rw [List.map_append]
      have hlast : List.map (bmUpdate k (r + 1) rest) [(hit.1,
          ({ metadata := hit.2.2
             content := hit.2.2.getStrD "content" ""
             vector_rank := none
             bm25_rank := some (r + 1)
             rrf_score := 0 + 1 / (k + r + 1) } : DocInfo))] =
          [(hit.1,
            ({ metadata := hit.2.2
               content := hit.2.2.getStrD "content" ""
               vector_rank := none
               bm25_rank := some (r + 1)
               rrf_score := 0 + 1 / (k + r + 1) } : DocInfo))] := by
        simp only [List.map_cons, List.map_nil]
        unfold bmUpdate
        rw [hnone]
      rw [hlast]
      have hmap2 : acc.map (bmUpdate k (r + 1) rest) =
          acc.map (bmUpdate k r (hit :: rest)) :=
        List.map_congr_left (fun p hp => (bmUpdate_shift k r hit rest p (hall p hp)).symm)
      rw [hmap2]
      have hck2 : ∀ h ∈ rest,
          (acc ++ [(hit.1,
            ({ metadata := hit.2.2
               content := hit.2.2.getStrD "content" ""
               vector_rank := none
               bm25_rank := some (r + 1)
               rrf_score := 0 + 1 / (k + r + 1) } : DocInfo))]).containsKey h.1 =
            acc.containsKey h.1 := by
        intro h hh
        rw [containsKey_append_single]
        simp [hhd h hh]
      rw [bmAppended_congr k _ _ rest (r + 1) hck2]
      conv_rhs => rw [bmAppended]
      rw [if_neg (by simp [hcf])]
      rw [List.append_assoc, List.singleton_append]

theorem bmUpdate_fst (k : ℚ) (r : Nat) (bm : List SearchHit) (p : String × DocInfo) :
    (bmUpdate k r bm p).1 = p.1 := by
  unfold bmUpdate
  cases idIndexIn p.1 bm <;> rfl

theorem idIndexIn_some_mem (id : String) :
    ∀ (l : List SearchHit) (i : Nat), idIndexIn id l = some i → ∃ h ∈ l, h.1 = id
  | [], i, h => by simp [idIndexIn] at h
  | x :: t, i, h => by
    rw [idIndexIn] at h
    by_cases hx : x.1 = id
    · exact ⟨x, List.mem_cons_self _ _, hx⟩
    · rw [if_neg hx] at h
      cases hj : idIndexIn id t with
      | none => rw [hj] at h; simp at h
      | some j =>
        obtain ⟨y, hy, hyid⟩ := idIndexIn_some_mem id t j hj
        exact ⟨y, List.mem_cons_of_mem _ hy, hyid⟩

theorem mem_vecEntriesFrom (k : ℚ) :
    ∀ (vec : List SearchHit) (r : Nat) (q : String × DocInfo),
      DistinctIds vec → q ∈ vecEntriesFrom k r vec →
      ∃ i, idIndexIn q.1 vec = some i ∧
        q.2.rrf_score = 0 + 1 / (k + (r + i : Nat) + 1) ∧
        q.2.vector_rank = some (r + i + 1) ∧ q.2.bm25_rank = none
  | [], _, q, _, hq => absurd hq (List.not_mem_nil q)
  | hit :: rest, r, q, hdist, hq => by
    have hdist2 : DistinctIds rest := (List.pairwise_cons.mp hdist).2
    have hhd : ∀ h ∈ rest, hit.1 ≠ h.1 := (List.pairwise_cons.mp hdist).1
    rw [vecEntriesFrom] at hq
    rcases List.mem_cons.mp hq with hq | hq
    · subst hq
      exact ⟨0, by rw [idIndexIn, if_pos rfl], rfl, rfl, rfl⟩
    · obtain ⟨i, hidx, hs, hv, hb⟩ := mem_vecEntriesFrom k rest (r + 1) q hdist2 hq
      have hne : hit.1 ≠ q.1 := by
        obtain ⟨y, hy, hyid⟩ := idIndexIn_some_mem q.1 rest i hidx
        rw [← hyid]
        exact hhd y hy
      have h1 : r + (i + 1) = r + 1 + i := by omega
      refine ⟨i + 1, ?_, ?_, ?_, hb⟩
      · rw [idIndexIn, if_neg hne, hidx]
        rfl
      · rw [h1]
        exact hs
      · rw [h1]
        exact hv

theorem mem_bmAppended (k : ℚ) (ex : String → Bool) :
    ∀ (bm : List SearchHit) (r : Nat) (q : String × DocInfo),
      DistinctIds bm → q ∈ bmAppended k ex r bm →
      ex q.1 = false ∧
      ∃ j, idIndexIn q.1 bm = some j ∧
        q.2.rrf_score = 0 + 1 / (k + (r + j : Nat) + 1) ∧
        q.2.bm25_rank = some (r + j + 1) ∧ q.2.vector_rank = none
  | [], _, q, _, hq => absurd hq (List.not_mem_nil q)
  | hit :: rest, r, q, hdist, hq => by
    have hdist2 : DistinctIds rest := (List.pairwise_cons.mp hdist).2
    have hhd : ∀ h ∈ rest, hit.1 ≠ h.1 := (List.pairwise_cons.mp hdist).1
    rw [bmAppended] at hq
    by_cases hex : ex hit.1 = true
    · rw [if_pos hex] at hq
      obtain ⟨hexq, j, hidx, hs, hbm, hv⟩ := mem_bmAppended k ex rest (r + 1) q hdist2 hq
      have hne : hit.1 ≠ q.1 := by
        obtain ⟨y, hy, hyid⟩ := idIndexIn_some_mem q.1 rest j hidx
        rw [← hyid]
        exact hhd y hy
      have h1 : r + (j + 1) = r + 1 + j := by omega
      refine ⟨hexq, j + 1, ?_, ?_, ?_, hv⟩
      · rw [idIndexIn, if_neg hne, hidx]
        rfl
      · rw [h1]
        exact hs
      · rw [h1]
        exact hbm
    · rw [if_neg hex] at hq
      rcases List.mem_cons.mp hq with hq | hq
      · subst hq
        exact ⟨Bool.eq_false_iff.mpr hex, 0, by rw [idIndexIn, if_pos rfl], rfl, rfl, rfl⟩
      · obtain ⟨hexq, j, hidx, hs, hbm, hv⟩ := mem_bmAppended k ex rest (r + 1) q hdist2 hq
        have hne : hit.1 ≠ q.1 := by
          obtain ⟨y, hy, hyid⟩ := idIndexIn_some_mem q.1 rest j hidx
          rw [← hyid]
          exact hhd y hy
        have h1 : r + (j + 1) = r + 1 + j := by omega
        refine ⟨hexq, j + 1, ?_, ?_, ?_, hv⟩
        · rw [idIndexIn, if_neg hne, hidx]
          rfl
        · rw [h1]
          exact hs
        · rw [h1]
          exact hbm

theorem containsKey_vecEntriesFrom (k : ℚ) (id : String) :
    ∀ (vec : List SearchHit) (r : Nat),
      (vecEntriesFrom k r vec).containsKey id = vec.any (fun h => h.1 = id)
  | [], _ => rfl
  | hit :: rest, r => by
    have ih := containsKey_vecEntriesFrom k id rest (r + 1)
    simp only [InfoMap.containsKey] at ih ⊢
    rw [vecEntriesFrom]
    simp only [List.any_cons]
    rw [ih]

theorem pyIns_perm {α : Type} (le : α → α → Bool) (x : α) :
    ∀ (l : List α), (pyIns le x l).Perm (x :: l)
  | [] => List.Perm.refl _
  | y :: ys => by
    rw [pyIns]
    by_cases h : le x y = true
    · rw [if_pos h]
    · rw [if_neg h]
      exact ((pyIns_perm le x ys).cons y).trans (List.Perm.swap x y ys)

theorem pySorted_perm {α : Type} (le : α → α → Bool) :
    ∀ (l : List α), (pySorted le l).Perm l
  | [] => List.Perm.refl _
  | x :: xs => (pyIns_perm le x (pySorted le xs)).trans ((pySorted_perm le xs).cons x)

/-- Claim C4, amended: reciprocal rank fusion assigns each returned chunk
the score sum, over the lists its id appears in, of 1 / (k + rank) with
1-based ranks (k = 60 in _hybrid_retrieval); for vector list [A, B, C] and
BM25 list [B, D, A], A scores 1/61 + 1/63 and B scores 1/62 + 1/61 as
claimed, but the output order is B > A > D > C: C and D do not tie, since
C scores 1/63 and D scores 1/62. -/
theorem c4_rrf_score_formula :
    (∀ (k : ℚ) (vec bm : List SearchHit), DistinctIds vec → DistinctIds bm →
      ∀ c ∈ _reciprocal_rank_fusion vec bm k,
        c.score = listContrib k vec c.id + listContrib k bm c.id) ∧
    (_reciprocal_rank_fusion exVec4 exBm4 60).map (fun c => (c.id, c.score)) =
      [("B", 1/62 + 1/61), ("A", 1/61 + 1/63), ("D", 1/62), ("C", 1/63)] := by
  constructor
  · intro k vec bm hv hb c hc
    simp only [_reciprocal_rank_fusion] at hc
    obtain ⟨p, hp, hce⟩ := List.mem_map.mp hc
    have hp2 : p ∈ buildDocInfo k vec bm := ((pySorted_perm _ _).mem_iff).mp hp
    subst hce
    show p.2.rrf_score = listContrib k vec p.1 + listContrib k bm p.1
    rw [buildDocInfo] at hp2
    rw [processVectorHits_char k vec 0 [] (fun h _ => rfl) hv, List.nil_append,
      processBM25Hits_char k bm 0 _ hb] at hp2
    rcases List.mem_append.mp hp2 with hp2 | hp2
    · obtain ⟨q, hq, hpe⟩ := List.mem_map.mp hp2
      obtain ⟨i, hidx, hs, _, _⟩ := mem_vecEntriesFrom k vec 0 q hv hq
      subst hpe
      rw [bmUpdate_fst]
      simp only [listContrib]
      rw [hidx]
      unfold bmUpdate
      cases hj : idIndexIn q.1 bm with
      | none =>
        dsimp only
        rw [hs]
        push_cast
        ring
      | some j =>
        dsimp only
        rw [hs]
        push_cast
        ring
    · obtain ⟨hex, j, hidx, hs, _, _⟩ := mem_bmAppended k _ bm 0 p hb hp2
      rw [containsKey_vecEntriesFrom] at hex
      have hnone : idIndexIn p.1 vec = none := by
        apply idIndexIn_eq_none
        intro h hh
        have := List.any_eq_false.mp hex h hh
        simpa using this
      simp only [listContrib]
      rw [hnone, hidx]
      dsimp only
      rw [hs]
      push_cast
      ring
  · norm_num +decide [_reciprocal_rank_fusion, buildDocInfo, processVectorHits,
      processBM25Hits, InfoMap.containsKey, InfoMap.modifyEntry, PyDict.getStrD,
      PyDict.get, pySorted, pyIns, toRetrievedChunk, exVec4, exBm4, List.any]

/-- Witness for C4 at the worked example lists. -/
theorem c4_rrf_score_formula_witness :
    DistinctIds exVec4 ∧ DistinctIds exBm4 ∧
    ∀ c ∈ _reciprocal_rank_fusion exVec4 exBm4 60,
      c.score = listContrib 60 exVec4 c.id + listContrib 60 exBm4 c.id :=
  ⟨by decide, by decide, c4_rrf_score_formula.1 60 exVec4 exBm4 (by decide) (by decide)⟩

/-- Claim C4, counterexample: with vector list [A, B, C] and BM25 list
[B, D, A], the fused output is B, A, D, C with scores 1/62 + 1/61,
1/61 + 1/63, 1/62 and 1/63; C and D receive different scores, refuting the
claimed order B > A > C = D. -/
theorem c4_counterexample :
    (_reciprocal_rank_fusion exVec4 exBm4 60).map (fun c => (c.id, c.score)) =
      [("B", 1/62 + 1/61), ("A", 1/61 + 1/63), ("D", 1/62), ("C", 1/63)] ∧
    (1/62 : ℚ) ≠ 1/63 := by
  constructor
  · norm_num +decide [_reciprocal_rank_fusion, buildDocInfo, processVectorHits,
      processBM25Hits, InfoMap.containsKey, InfoMap.modifyEntry, PyDict.getStrD,
      PyDict.get, pySorted, pyIns, toRetrievedChunk, exVec4, exBm4, List.any]
  · norm_num

theorem containsKey_false_idIndexIn_none (k : ℚ) (r : Nat) (vec : List SearchHit)
    (id : String) (hex : (vecEntriesFrom k r vec).containsKey id = false) :
    idIndexIn id vec = none := by
  rw [containsKey_vecEntriesFrom] at hex
  apply idIndexIn_eq_none
  intro h hh
  have := List.any_eq_false.mp hex h hh
  simpa using this

theorem vecEntriesFrom_pairwise (k : ℚ) :
    ∀ (vec : List SearchHit) (r : Nat), DistinctIds vec →
      (vecEntriesFrom k r vec).Pairwise (fun a b =>
        ∃ i j, idIndexIn a.1 vec = some i ∧ idIndexIn b.1 vec = some j ∧ i < j)
  | [], _, _ => List.Pairwise.nil
  | hit :: rest, r, hdist => by
    have hdist2 : DistinctIds rest := (List.pairwise_cons.mp hdist).2
    have hhd : ∀ h ∈ rest, hit.1 ≠ h.1 := (List.pairwise_cons.mp hdist).1
    rw [vecEntriesFrom]
    refine List.pairwise_cons.mpr ⟨?_, ?_⟩
    · intro b hb
      obtain ⟨j, hj, _, _, _⟩ := mem_vecEntriesFrom k rest (r + 1) b hdist2 hb
      have hne : hit.1 ≠ b.1 := by
        obtain ⟨y, hy, hyid⟩ := idIndexIn_some_mem b.1 rest j hj
        rw [← hyid]
        exact hhd y hy
      exact ⟨0, j + 1, by rw [idIndexIn, if_pos rfl],
        by rw [idIndexIn, if_neg hne, hj]; rfl, Nat.succ_pos j⟩
    · refine (vecEntriesFrom_pairwise k rest (r + 1) hdist2).imp ?_
      intro a b hab
      obtain ⟨i, j, hi, hj, hij⟩ := hab
      have hnea : hit.1 ≠ a.1 := by
        obtain ⟨y, hy, hyid⟩ := idIndexIn_some_mem a.1 rest i hi
        rw [← hyid]
        exact hhd y hy
      have hneb : hit.1 ≠ b.1 := by
        obtain ⟨y, hy, hyid⟩ := idIndexIn_some_mem b.1 rest j hj
        rw [← hyid]
        exact hhd y hy
      exact ⟨i + 1, j + 1, by rw [idIndexIn, if_neg hnea, hi]; rfl,
        by rw [idIndexIn, if_neg hneb, hj]; rfl, Nat.succ_lt_succ hij⟩

theorem bmAppended_pairwise (k : ℚ) (ex : String → Bool) :
    ∀ (bm : List SearchHit) (r : Nat), DistinctIds bm →
      (bmAppended k ex r bm).Pairwise (fun a b =>
        ∃ i j, idIndexIn a.1 bm = some i ∧ idIndexIn b.1 bm = some j ∧ i < j)
  | [], _, _ => List.Pairwise.nil
  | hit :: rest, r, hdist => by
    have hdist2 : DistinctIds rest := (List.pairwise_cons.mp hdist).2
    have hhd : ∀ h ∈ rest, hit.1 ≠ h.1 := (List.pairwise_cons.mp hdist).1
    have hlift : ∀ (a b : String × DocInfo),
        (∃ i j, idIndexIn a.1 rest = some i ∧ idIndexIn b.1 rest = some j ∧ i < j) →
        ∃ i j, idIndexIn a.1 (hit :: rest) = some i ∧
          idIndexIn b.1 (hit :: rest) = some j ∧ i < j := by
      intro a b hab
      obtain ⟨i, j, hi, hj, hij⟩ := hab
      have hnea : hit.1 ≠ a.1 := by
        obtain ⟨y, hy, hyid⟩ := idIndexIn_some_mem a.1 rest i hi
        rw [← hyid]
        exact hhd y hy
      have hneb : hit.1 ≠ b.1 := by
        obtain ⟨y, hy, hyid⟩ := idIndexIn_some_mem b.1 rest j hj
        rw [← hyid]
        exact hhd y hy
      exact ⟨i + 1, j + 1, by rw [idIndexIn, if_neg hnea, hi]; rfl,
        by rw [idIndexIn, if_neg hneb, hj]; rfl, Nat.succ_lt_succ hij⟩
    rw [bmAppended]
    by_cases hex : ex hit.1 = true
    · rw [if_pos hex]
      exact (bmAppended_pairwise k ex rest (r + 1) hdist2).imp (fun h => hlift _ _ h)
    · rw [if_neg hex]
      refine List.pairwise_cons.mpr ⟨?_, ?_⟩
      · intro b hb
        obtain ⟨_, j, hj, _, _, _⟩ := mem_bmAppended k ex rest (r + 1) b hdist2 hb
        have hne : hit.1 ≠ b.1 := by
          obtain ⟨y, hy, hyid⟩ := idIndexIn_some_mem b.1 rest j hj
          rw [← hyid]
          exact hhd y hy
        exact ⟨0, j + 1, by rw [idIndexIn, if_pos rfl],
          by rw [idIndexIn, if_neg hne, hj]; rfl, Nat.succ_pos j⟩
      · exact (bmAppended_pairwise k ex rest (r + 1) hdist2).imp (fun h => hlift _ _ h)

theorem buildDocInfo_pairwise (k : ℚ) (vec bm : List SearchHit)
    (hv : DistinctIds vec) (hb : DistinctIds bm) :
    (buildDocInfo k vec bm).Pairwise (fun a b => tieBreakLt vec bm a.1 b.1) := by
  rw [buildDocInfo, processVectorHits_char k vec 0 [] (fun h _ => rfl) hv, List.nil_append,
    processBM25Hits_char k bm 0 _ hb]
  rw [List.pairwise_append]
  refine ⟨?_, ?_, ?_⟩
  · rw [List.pairwise_map]
    refine (vecEntriesFrom_pairwise k vec 0 hv).imp ?_
    intro a b hab
    obtain ⟨i, j, hi, hj, hij⟩ := hab
    rw [tieBreakLt, bmUpdate_fst, bmUpdate_fst]
    left
    simp only [rankIn, hi, hj, Option.map_some', optRankLt]
    exact Nat.succ_lt_succ hij
  · refine (bmAppended_pairwise k _ bm 0 hb).imp_of_mem ?_
    intro a b ha hb2 hab
    obtain ⟨i, j, hi, hj, hij⟩ := hab
    obtain ⟨hexa, _⟩ := mem_bmAppended k _ bm 0 a hb ha
    obtain ⟨hexb, _⟩ := mem_bmAppended k _ bm 0 b hb hb2
    have hva : idIndexIn a.1 vec = none := containsKey_false_idIndexIn_none k 0 vec a.1 hexa
    have hvb : idIndexIn b.1 vec = none := containsKey_false_idIndexIn_none k 0 vec b.1 hexb
    rw [tieBreakLt]
    right
    constructor
    · rw [rankIn, rankIn, hva, hvb]
    · left
      simp only [rankIn, hi, hj, Option.map_some', optRankLt]
      exact Nat.succ_lt_succ hij
  · intro a ha b hb2
    obtain ⟨q, hq, hpe⟩ := List.mem_map.mp ha
    obtain ⟨i, hi, _, _, _⟩ := mem_vecEntriesFrom k vec 0 q hv hq
    obtain ⟨hexb, _⟩ := mem_bmAppended k _ bm 0 b hb hb2
    have hvb : idIndexIn b.1 vec = none := containsKey_false_idIndexIn_none k 0 vec b.1 hexb
    rw [tieBreakLt]
    left
    subst hpe
    rw [bmUpdate_fst]
    simp only [rankIn, hi, hvb, Option.map_some', Option.map_none', optRankLt]

theorem pyIns_pairwise {α : Type} (le : α → α → Bool) (Q : α → α → Prop)
    (htot : ∀ a b, le a b = true ∨ le b a = true)
    (htrans : ∀ a b c, le a b = true → le b c = true → le a c = true)
    (x : α) :
    ∀ (s : List α),
      s.Pairwise (fun a b => le a b = true ∧ (le b a = false ∨ Q a b)) →
      (∀ y ∈ s, Q x y) →
      (pyIns le x s).Pairwise (fun a b => le a b = true ∧ (le b a = false ∨ Q a b))
  | [], _, _ => by simp [pyIns]
  | y :: ys, hpw, hQ => by
    obtain ⟨hy, hys⟩ := List.pairwise_cons.mp hpw
    rw [pyIns]
    by_cases h : le x y = true
    · rw [if_pos h]
      refine List.pairwise_cons.mpr ⟨?_, hpw⟩
      intro z hz
      rcases List.mem_cons.mp hz with hz | hz
      · subst hz
        exact ⟨h, Or.inr (hQ z (List.mem_cons_self _ _))⟩
      · have hyz := hy z hz
        exact ⟨htrans x y z h hyz.1, Or.inr (hQ z (List.mem_cons_of_mem _ hz))⟩
    · rw [if_neg h]
      refine List.pairwise_cons.mpr ⟨?_, pyIns_pairwise le Q htot htrans x ys hys
        (fun z hz => hQ z (List.mem_cons_of_mem _ hz))⟩
      intro z hz
      have hz2 := (pyIns_perm le x ys).mem_iff.mp hz
      rcases List.mem_cons.mp hz2 with hz2 | hz2
      · subst hz2
        exact ⟨(htot z y).resolve_left h, Or.inl (Bool.eq_false_iff.mpr h)⟩
      · exact hy z hz2

theorem pySorted_pairwise {α : Type} (le : α → α → Bool) (Q : α → α → Prop)
    (htot : ∀ a b, le a b = true ∨ le b a = true)
    (htrans : ∀ a b c, le a b = true → le b c = true → le a c = true) :
    ∀ (l : List α), l.Pairwise Q →
      (pySorted le l).Pairwise (fun a b => le a b = true ∧ (le b a = false ∨ Q a b))
  | [], _ => List.Pairwise.nil
  | x :: xs, hpw => by
    obtain ⟨hx, hxs⟩ := List.pairwise_cons.mp hpw
    rw [pySorted]
    refine pyIns_pairwise le Q htot htrans x (pySorted le xs)
      (pySorted_pairwise le Q htot htrans xs hxs) ?_
    intro y hy
    exact hx y ((pySorted_perm le xs).mem_iff.mp hy)

/-- Claim C5: the fused result list is sorted by strictly descending RRF
score; chunks with equal score are ordered by ascending vector rank, then
ascending BM25 rank, then ascending document id (the tie order coincides
with the stable sort's insertion order); at most FINAL_CONTEXT_TOP_K
chunks are returned. -/
theorem c5_fused_order (vec bm : List SearchHit)
    (hv : DistinctIds vec) (hb : DistinctIds bm) :
    (_hybrid_retrieval vec bm).length ≤ FINAL_CONTEXT_TOP_K ∧
    (_hybrid_retrieval vec bm).Pairwise (fun a b =>
      b.score < a.score ∨ (a.score = b.score ∧ tieBreakLt vec bm a.id b.id)) := by
  constructor
  · rw [_hybrid_retrieval]
    exact List.length_take_le _ _
  · rw [_hybrid_retrieval]
    have htot : ∀ (a b : String × DocInfo),
        decide (b.2.rrf_score ≤ a.2.rrf_score) = true ∨
        decide (a.2.rrf_score ≤ b.2.rrf_score) = true := by
      intro a b
      rcases le_total b.2.rrf_score a.2.rrf_score with h | h
      · exact Or.inl (by simpa using h)
      · exact Or.inr (by simpa using h)
    have htrans : ∀ (a b c : String × DocInfo),
        decide (b.2.rrf_score ≤ a.2.rrf_score) = true →
        decide (c.2.rrf_score ≤ b.2.rrf_score) = true →
        decide (c.2.rrf_score ≤ a.2.rrf_score) = true := by
      intro a b c h1 h2
      rw [decide_eq_true_eq] at h1 h2 ⊢
      exact le_trans h2 h1
    have hsorted := pySorted_pairwise
      (fun (a b : String × DocInfo) => decide (b.2.rrf_score ≤ a.2.rrf_score))
      (fun a b => tieBreakLt vec bm a.1 b.1) htot htrans
      (buildDocInfo 60 vec bm) (buildDocInfo_pairwise 60 vec bm hv hb)
    refine List.Pairwise.sublist (List.take_sublist _ _) ?_
    simp only [_reciprocal_rank_fusion]
    rw [List.pairwise_map]
    refine hsorted.imp ?_
    intro a b hab
    obtain ⟨h1, h2⟩ := hab
    rw [decide_eq_true_eq] at h1
    show b.2.rrf_score < a.2.rrf_score ∨
      (a.2.rrf_score = b.2.rrf_score ∧ tieBreakLt vec bm a.1 b.1)
    rcases lt_or_eq_of_le h1 with hlt | heq
    · exact Or.inl hlt
    · refine Or.inr ⟨heq.symm, ?_⟩
      rcases h2 with h2 | h2
      · exact absurd (le_of_eq heq.symm) (by simpa using h2)
      · exact h2

/-- Witness for C5 at the worked example lists. -/
theorem c5_fused_order_witness :
    DistinctIds exVec4 ∧ DistinctIds exBm4 ∧
    ((_hybrid_retrieval exVec4 exBm4).length ≤ FINAL_CONTEXT_TOP_K ∧
     (_hybrid_retrieval exVec4 exBm4).Pairwise (fun a b =>
       b.score < a.score ∨
       (a.score = b.score ∧ tieBreakLt exVec4 exBm4 a.id b.id))) :=
  ⟨by decide, by decide, c5_fused_order exVec4 exBm4 (by decide) (by decide)⟩

/-- Claim C3, code bug: models.TaskStatus has no PARTIAL_SUCCESS member,
so the TaskStatus.PARTIAL_SUCCESS access of ingestion_service.py raises
AttributeError; moreover the async batch loop raises on the first failed
batch instead of processing the remaining ones.  In a run in which phases
1-4 succeed and the first of two storage batches fails, the session ends
FAILED (with completed_at set), and no document is stored even though the
second batch would have succeeded. -/
theorem c3_partial_success_missing :
    TaskStatus.fromName "PARTIAL_SUCCESS" = none ∧
    (process_repository exIngestEnv [] "https://github.com/pallets/flask").status =
      TaskStatus.failed ∧
    (process_repository exIngestEnv [] "https://github.com/pallets/flask").completedAt =
      true ∧
    (process_repository exIngestEnv [] "https://github.com/pallets/flask").errorMessage =
      some "AttributeError: PARTIAL_SUCCESS is not a member of TaskStatus" ∧
    (process_repository exIngestEnv [] "https://github.com/pallets/flask").store =
      [("github_pallets_flask_8f5a43fb", [])] ∧
    exIngestEnv.storeBatchFails 1 = false := by
  set_option maxRecDepth 10000 in
  refine ⟨rfl, ?_, ?_, ?_, ?_, rfl⟩ <;> rfl

theorem char_toNat_ofNat (n : Nat) (h : Nat.isValidChar n) : (Char.ofNat n).toNat = n := by
  rw [Char.ofNat, dif_pos h]
  rfl

theorem char_toLower_idem (c : Char) : Char.toLower (Char.toLower c) = Char.toLower c := by
  by_cases h : (Char.toLower c).toNat ≥ 65 ∧ (Char.toLower c).toNat ≤ 90
  · exfalso
    simp only [Char.toLower] at h
    by_cases hc : c.toNat ≥ 65 ∧ c.toNat ≤ 90
    · rw [if_pos hc] at h
      rw [char_toNat_ofNat (c.toNat + 32) (Or.inl (by omega))] at h
      omega
    · rw [if_neg hc] at h
      exact hc h
  · simp only [Char.toLower]
    exact if_neg h

theorem mem_pySplitChar (sep : Char) :
    ∀ (l : List Char) (p : List Char), p ∈ pySplitChar sep l → ∀ c ∈ p, c ∈ l
  | [], p, hp, c, hc => by
    simp [pySplitChar] at hp
    subst hp
    exact absurd hc (List.not_mem_nil c)
  | x :: rest, p, hp, c, hc => by
    rw [pySplitChar] at hp
    by_cases hx : (x == sep) = true
    · rw [if_pos hx] at hp
      rcases List.mem_cons.mp hp with hp | hp
      · subst hp
        exact absurd hc (List.not_mem_nil c)
      · exact List.mem_cons_of_mem _ (mem_pySplitChar sep rest p hp c hc)
    · rw [if_neg hx] at hp
      cases hsp : pySplitChar sep rest with
      | nil =>
        rw [hsp] at hp
        simp at hp
        subst hp
        rcases List.mem_cons.mp hc with hc | hc
        · subst hc
          exact List.mem_cons_self _ _
        · exact absurd hc (List.not_mem_nil c)
      | cons q qs =>
        rw [hsp] at hp
        rcases List.mem_cons.mp hp with hp | hp
        · subst hp
          rcases List.mem_cons.mp hc with hc | hc
          · subst hc
            exact List.mem_cons_self _ _
          · exact List.mem_cons_of_mem _ (mem_pySplitChar sep rest q
              (by rw [hsp]; exact List.mem_cons_self _ _) c hc)
        · exact List.mem_cons_of_mem _ (mem_pySplitChar sep rest p
            (by rw [hsp]; exact List.mem_cons_of_mem _ hp) c hc)

theorem mem_stripParams (p : List Char) (c : Char) (hc : c ∈ stripParams p) : c ∈ p := by
  simp only [stripParams] at hc
  rcases List.mem_append.mp hc with hc | hc
  · rw [List.mem_reverse] at hc
    have h1 := (List.drop_sublist _ _).subset hc
    exact List.mem_reverse.mp h1
  · have h1 := (List.takeWhile_sublist _).subset hc
    rw [List.mem_reverse] at h1
    have h2 := (List.takeWhile_sublist _).subset h1
    exact List.mem_reverse.mp h2

theorem mem_urlPathOf (u : List Char) (c : Char) (hc : c ∈ urlPathOf u) : c ∈ u := by
  simp only [urlPathOf] at hc
  have h1 := mem_stripParams _ c hc
  have h2 := (List.takeWhile_sublist _).subset h1
  have h3 := (List.dropWhile_sublist _).subset h2
  have h4 := (List.takeWhile_sublist _).subset h3
  by_cases hs : List.isPrefixOf "https://".toList u = true
  · rw [if_pos hs] at h4
    exact (List.drop_sublist _ _).subset h4
  · rw [if_neg hs] at h4
    exact (List.drop_sublist _ _).subset h4

theorem mem_stripSlashes (p : List Char) (c : Char) (hc : c ∈ stripSlashes p) : c ∈ p := by
  simp only [stripSlashes] at hc
  rw [List.mem_reverse] at hc
  have h1 := (List.dropWhile_sublist _).subset hc
  rw [List.mem_reverse] at h1
  exact (List.dropWhile_sublist _).subset h1

theorem scheme_chars_fixed : ∀ c ∈ "https://".toList, Char.toLower c = c := by decide

theorem part_chars_fixed (url : String) (p : List Char)
    (hp : p ∈ (splitOnSlash (stripSlashes (urlPathOf
      (if hasHttpScheme (pyLower (pyStrip url.toList)) then pyLower (pyStrip url.toList)
       else "https://".toList ++ pyLower (pyStrip url.toList))))).filter
      (fun q => !q.isEmpty)) :
    ∀ c ∈ p, Char.toLower c = c := by
  intro c hc
  have h1 := (List.filter_sublist _).subset hp
  have h2 := mem_pySplitChar '/' _ p h1 c hc
  have h3 := mem_stripSlashes _ c h2
  have h4 := mem_urlPathOf _ c h3
  have hlow : ∀ d ∈ pyLower (pyStrip url.toList), Char.toLower d = d := by
    intro d hd
    obtain ⟨e, _, he⟩ := List.mem_map.mp hd
    rw [← he]
    exact char_toLower_idem e
  by_cases hs : hasHttpScheme (pyLower (pyStrip url.toList)) = true
  · rw [if_pos hs] at h4
    exact hlow c h4
  · rw [if_neg hs] at h4
    rcases List.mem_append.mp h4 with h5 | h5
    · exact scheme_chars_fixed c h5
    · exact hlow c h5

theorem extract_chars_fixed (url o n : String)
    (h : extract_owner_repo url = some (o, n)) :
    (∀ c ∈ o.data, Char.toLower c = c) ∧ ∀ c ∈ n.data, Char.toLower c = c := by
  simp only [extract_owner_repo] at h
  split at h
  case _ ow rp tl heq =>
    simp only [Option.some.injEq, Prod.mk.injEq] at h
    obtain ⟨ho, hn⟩ := h
    have how : ow ∈ ow :: rp :: tl := List.mem_cons_self _ _
    have hrp : rp ∈ ow :: rp :: tl := List.mem_cons_of_mem _ (List.mem_cons_self _ _)
    rw [← heq] at how hrp
    constructor
    · intro c hc
      rw [← ho] at hc
      exact part_chars_fixed url ow how c hc
    · intro c hc
      rw [← hn] at hc
      by_cases hg : List.isSuffixOf ".git".toList rp = true
      · rw [if_pos hg] at hc
        exact part_chars_fixed url rp hrp c ((List.take_sublist _ _).subset hc)
      · rw [if_neg hg] at hc
        exact part_chars_fixed url rp hrp c hc
  case _ heq => exact absurd h (by simp)

theorem sha256Hex_chars (msg : List Nat) :
    ∀ c ∈ (sha256Hex msg).data, Char.toLower c = c := by
  intro c hc
  have hc2 : c ∈ ((sha256Words msg).map toHex8).flatten := hc
  obtain ⟨l, hl, hcl⟩ := List.mem_flatten.mp hc2
  obtain ⟨w, _, hw⟩ := List.mem_map.mp hl
  subst hw
  obtain ⟨i, _, hi⟩ := List.mem_map.mp hcl
  rw [← hi]
  have hlt : ((w >>> (4 * (7 - i))) &&& 0xf) < 16 :=
    Nat.lt_succ_of_le (Nat.and_le_right)
  have hall : ∀ d < 16, Char.toLower (Nat.digitChar d) = Nat.digitChar d := by decide
  exact hall _ hlt

/-- Claim C2: two repository URLs that normalize to the same owner and
name yield the same identifier; for every valid URL the identifier is
github_ then owner, name and the first 8 hex characters of
sha256 of owner slash name, and every character of the identifier is
lowercase (a fixed point of Char.toLower). -/
theorem c2_repository_identifier :
    (∀ (u1 u2 : String) (p : String × String),
      extract_owner_repo u1 = some p → extract_owner_repo u2 = some p →
      generate_repository_identifier u1 = generate_repository_identifier u2) ∧
    (∀ (u o n : String), extract_owner_repo u = some (o, n) →
      generate_repository_identifier u =
        some ("github_" ++ o ++ "_" ++ n ++ "_" ++
          (sha256Hex (utf8Bytes (o ++ "/" ++ n))).take 8)) ∧
    (∀ (u gid : String), generate_repository_identifier u = some gid →
      ∀ c ∈ gid.data, Char.toLower c = c) := by
  refine ⟨?_, ?_, ?_⟩
  · intro u1 u2 p h1 h2
    simp only [generate_repository_identifier, h1, h2]
  · intro u o n h
    simp only [generate_repository_identifier, h, hashSuffix]
  · intro u gid h c hc
    simp only [generate_repository_identifier] at h
    split at h
    case _ => exact absurd h (by simp)
    case _ p heq =>
      simp only [Option.some.injEq] at h
      obtain ⟨o, n⟩ := p
      rw [← h] at hc
      generalize hsuf : hashSuffix o n = suf at hc
      simp only [String.data_append, List.mem_append] at hc
      have hgh : ∀ d ∈ ("github_" : String).data, Char.toLower d = d := by decide
      have hus : ∀ d ∈ ("_" : String).data, Char.toLower d = d := by decide
      obtain ⟨hof, hnf⟩ := extract_chars_fixed u o n heq
      rcases hc with ((((hc | hc) | hc) | hc) | hc) | hc
      · exact hgh c hc
      · exact hof c hc
      · exact hus c hc
      · exact hnf c hc
      · exact hus c hc
      · have hc2 : c ∈ (sha256Hex (utf8Bytes (o ++ "/" ++ n))).data := by
          rw [← hsuf, hashSuffix, String.data_take] at hc
          exact (List.take_sublist _ _).subset hc
        exact sha256Hex_chars _ c hc2

/-- Witness for C2: an uppercase .git URL and a bare lowercase URL
normalize to pallets flask and receive the same identifier. -/
theorem c2_repository_identifier_witness :
    extract_owner_repo "https://github.com/Pallets/Flask.git" = some ("pallets", "flask") ∧
    extract_owner_repo "github.com/pallets/flask" = some ("pallets", "flask") ∧
    generate_repository_identifier "https://github.com/Pallets/Flask.git" =
      generate_repository_identifier "github.com/pallets/flask" :=
  ⟨rfl, rfl, c2_repository_identifier.1 "https://github.com/Pallets/Flask.git"
    "github.com/pallets/flask" ("pallets", "flask") rfl rfl⟩

theorem getCollection_createCollection_isSome :
    ∀ (st : Store) (name : String),
      ((Store.createCollection st name).getCollection name).isSome = true
  | [], name => by simp [Store.createCollection, Store.getCollection]
  | p :: tl, name => by
    rw [Store.createCollection, List.cons_append, Store.getCollection]
    by_cases hp : p.1 = name
    · rw [if_pos hp]
      rfl
    · rw [if_neg hp]
      exact getCollection_createCollection_isSome tl name

theorem getCollection_setCollection_isSome :
    ∀ (st : Store) (name : String) (es : List StoredEntry) (name2 : String),
      ((st.setCollection name es).getCollection name2).isSome =
        (st.getCollection name2).isSome
  | [], _, _, _ => rfl
  | p :: tl, name, es, name2 => by
    rw [Store.setCollection, List.map_cons]
    by_cases hp : p.1 = name
    · rw [if_pos hp, Store.getCollection, Store.getCollection]
      by_cases h2 : p.1 = name2
      · rw [if_pos h2, if_pos (hp ▸ h2)]
        rfl
      · rw [if_neg h2, if_neg (fun h => h2 (hp.symm ▸ h))]
        exact getCollection_setCollection_isSome tl name es name2
    · rw [if_neg hp, Store.getCollection, Store.getCollection]
      by_cases h2 : p.1 = name2
      · rw [if_pos h2, if_pos h2]
      · rw [if_neg h2, if_neg h2]
        exact getCollection_setCollection_isSome tl name es name2

theorem add_repo_docs_presence (fails : Bool) (st : Store) (rid : String)
    (docs : List Doc) (embs : List (List ℚ)) (name : String)
    (h : (st.getCollection name).isSome = true) :
    (((add_documents_to_repository_collection fails st rid docs embs).2).getCollection
      name).isSome = true := by
  rw [add_documents_to_repository_collection]
  by_cases hf : fails = true
  · rw [if_pos hf]
    exact h
  · rw [if_neg hf]
    cases hst : st.getCollection rid with
    | none => exact h
    | some coll =>
      show ((st.setCollection rid _).getCollection name).isSome = true
      rw [getCollection_setCollection_isSome]
      exact h

theorem vectorizeStoreLoopGo_presence (env : IngestEnv) (rid : String) (bs : Nat)
    (name : String) :
    ∀ (fuel batchIdx : Nat) (docs : List Doc) (embs : List (List ℚ)) (st : Store),
      (st.getCollection name).isSome = true →
      (((vectorizeStoreLoopGo env rid bs fuel batchIdx docs embs st).2).getCollection
        name).isSome = true
  | 0, _, _, _, st, h => h
  | fuel + 1, batchIdx, docs, embs, st, h => by
    rw [vectorizeStoreLoopGo.eq_def]
    cases docs with
    | nil => exact h
    | cons d ds =>
      dsimp only
      have hres := add_repo_docs_presence (env.storeBatchFails batchIdx) st rid
        ((d :: ds).take bs) (embs.take bs) name h
      by_cases hok : (add_documents_to_repository_collection
          (env.storeBatchFails batchIdx) st rid ((d :: ds).take bs) (embs.take bs)).1 = true
      · rw [if_pos hok]
        exact vectorizeStoreLoopGo_presence env rid bs name fuel (batchIdx + 1)
          ((d :: ds).drop bs) (embs.drop bs) _ hres
      · rw [if_neg hok]
        exact hres

theorem vectorizeAndStoreAsync_presence (env : IngestEnv) (rid : String)
    (documents : List Doc) (st : Store) (name : String)
    (h : (st.getCollection name).isSome = true) :
    (((vectorizeAndStoreAsync env rid documents st).2).getCollection name).isSome =
      true := by
  rw [vectorizeAndStoreAsync]
  by_cases hde : documents.isEmpty = true
  · rw [if_pos hde]
    exact h
  · rw [if_neg hde]
    cases heo : env.embedOutcome with
    | error e => exact h
    | ok embs =>
      by_cases hbs : (if env.batch_size = 0 then EMBEDDING_BATCH_SIZE else env.batch_size) = 0
      · simp only [hbs, if_true]
        exact h
      · simp only [hbs, if_false]
        exact vectorizeStoreLoopGo_presence env rid _ name documents.length 0
          documents embs st h

/-- Claim C1 (repository-keyed vector store methods modelled from the
spec): when the repository identifier names a collection that exists and
holds at least one chunk, process_repository marks the session SUCCESS,
never calls the embedder and leaves the store untouched; when the check
fails and the store is reachable, the collection named by the identifier
exists in the resulting store. -/
theorem c1_short_circuit_and_create :
    (∀ (env : IngestEnv) (st : Store) (url rid : String),
      generate_repository_identifier url = some rid → env.cfgOk = true →
      check_repository_collection_exists st rid = true →
      (process_repository env st url).status = TaskStatus.success ∧
      (process_repository env st url).embedDocumentsCalled = false ∧
      (process_repository env st url).store = st) ∧
    (∀ (env : IngestEnv) (st : Store) (url rid : String),
      generate_repository_identifier url = some rid → env.cfgOk = true →
      check_repository_collection_exists st rid = false →
      env.storeReachable = true →
      ((process_repository env st url).store.getCollection rid).isSome = true) := by
  constructor
  · intro env st url rid hid hcfg hex
    refine ⟨?_, ?_, ?_⟩ <;> simp [process_repository, hid, hcfg, hex]
  · intro env st url rid hid hcfg hex hreach
    simp only [process_repository, hid, hcfg, hex, hreach, Bool.not_true,
      Bool.false_eq_true, if_false]
    have hcr1 : (create_repository_collection true st rid).1 = true := by
      rw [create_repository_collection, if_pos rfl]
      cases hst : st.getCollection rid <;> simp
    have hpres :
        (((create_repository_collection true st rid).2).getCollection rid).isSome = true := by
      rw [create_repository_collection, if_pos rfl]
      cases hst : st.getCollection rid with
      | none =>
        simp only
        exact getCollection_createCollection_isSome st rid
      | some coll => simp [hst]
    simp only [hcr1, Bool.not_true, Bool.false_eq_true, if_false]
    generalize hgen : (create_repository_collection true st rid).2 = st1
    rw [hgen] at hpres
    cases hclone : env.cloneOk with
    | false => simpa [ingestFailed] using hpres
    | true =>
      simp only [hclone, Bool.not_true, Bool.false_eq_true, if_false]
      cases hfo : env.filesOutcome with
      | error e => simpa [ingestFailed, TaskStatus.fromName] using hpres
      | ok ds =>
        by_cases hde : ds.isEmpty = true
        · simpa [hde, ingestFailed, TaskStatus.fromName] using hpres
        · have hvsa := vectorizeAndStoreAsync_presence env rid ds st1 rid hpres
          by_cases hr : (vectorizeAndStoreAsync env rid ds st1).1 = true
          · simpa [hde, hr, ingestFailed, TaskStatus.fromName] using hvsa
          · simpa [hde, hr, ingestFailed, TaskStatus.fromName] using hvsa

set_option maxRecDepth 10000 in
/-- Witness for C1: with a populated pallets/flask collection the ingest
short-circuits to SUCCESS without touching the store; with an empty store
the collection is present afterwards. -/
theorem c1_short_circuit_and_create_witness :
    (generate_repository_identifier "https://github.com/pallets/flask" =
      some "github_pallets_flask_8f5a43fb" ∧
     exIngestEnv.cfgOk = true ∧
     check_repository_collection_exists exC1Store "github_pallets_flask_8f5a43fb" = true ∧
     ((process_repository exIngestEnv exC1Store "https://github.com/pallets/flask").status =
        TaskStatus.success ∧
      (process_repository exIngestEnv exC1Store
        "https://github.com/pallets/flask").embedDocumentsCalled = false ∧
      (process_repository exIngestEnv exC1Store "https://github.com/pallets/flask").store =
        exC1Store)) ∧
    (check_repository_collection_exists [] "github_pallets_flask_8f5a43fb" = false ∧
     exIngestEnv.storeReachable = true ∧
     ((process_repository exIngestEnv [] "https://github.com/pallets/flask").store.getCollection
        "github_pallets_flask_8f5a43fb").isSome = true) :=
  ⟨⟨rfl, rfl, rfl,
    c1_short_circuit_and_create.1 exIngestEnv exC1Store "https://github.com/pallets/flask"
      "github_pallets_flask_8f5a43fb" rfl rfl rfl⟩,
   rfl, rfl,
   c1_short_circuit_and_create.2 exIngestEnv [] "https://github.com/pallets/flask"
     "github_pallets_flask_8f5a43fb" rfl rfl rfl rfl⟩

theorem countNonWs_append (a b : String) :
    countNonWs (a ++ b) = countNonWs a + countNonWs b := by
  simp [countNonWs, String.data_append, List.filter_append]

theorem countNonWs_joinNL_concat :
    ∀ (xs : List String) (x : String),
      countNonWs (joinNL (xs ++ [x])) = countNonWs (joinNL xs) + countNonWs x
  | [], x => by simp [joinNL, countNonWs]
  | [y], x => by
    show countNonWs (y ++ "\n" ++ joinNL [x]) = countNonWs (joinNL [y]) + countNonWs x
    rw [joinNL, joinNL, countNonWs_append, countNonWs_append]
    have h0 : countNonWs "\n" = 0 := by decide
    omega
  | y :: z :: zs, x => by
    have ih := countNonWs_joinNL_concat (z :: zs) x
    show countNonWs (y ++ "\n" ++ joinNL ((z :: zs) ++ [x])) =
      countNonWs (y ++ "\n" ++ joinNL (z :: zs)) + countNonWs x
    simp only [countNonWs_append]
    rw [ih]
    omega

theorem chunkByLinesGo_dropLast_min (cfg : AstConfig) (doc : Doc) (baseIdx : Nat) :
    ∀ (lines cur : List String) (curN : Nat) (chunks : List Doc),
      curN = countNonWs (joinNL cur) →
      (∀ c ∈ chunks, cfg.min_chunk_size ≤ countNonWs c.page_content) →
      ∀ c ∈ (chunkByLinesGo cfg doc baseIdx lines cur curN chunks).dropLast,
        cfg.min_chunk_size ≤ countNonWs c.page_content
  | [], cur, curN, chunks, hinv, hch, c, hc => by
    rw [chunkByLinesGo] at hc
    by_cases hcur : cur.isEmpty = true
    · rw [if_pos hcur] at hc
      exact hch c ((List.dropLast_sublist _).subset hc)
    · rw [if_neg hcur] at hc
      rw [List.dropLast_concat] at hc
      exact hch c hc
  | line :: rest, cur, curN, chunks, hinv, hch, c, hc => by
    rw [chunkByLinesGo] at hc
    by_cases hcond : curN + countNonWs line > cfg.chunk_size ∧
        ¬cur.isEmpty = true ∧ cfg.min_chunk_size ≤ curN
    · rw [if_pos hcond] at hc
      refine chunkByLinesGo_dropLast_min cfg doc baseIdx rest _ _ _ rfl ?_ c hc
      intro d hd
      rcases List.mem_append.mp hd with hd | hd
      · exact hch d hd
      · have hd2 : d = _create_chunk_document (joinNL cur) doc (baseIdx + chunks.length) := by
          simpa using hd
        subst hd2
        show cfg.min_chunk_size ≤ countNonWs (joinNL cur)
        rw [← hinv]
        exact hcond.2.2
    · rw [if_neg hcond] at hc
      refine chunkByLinesGo_dropLast_min cfg doc baseIdx rest _ _ _ ?_ hch c hc
      rw [hinv]
      exact (countNonWs_joinNL_concat cur line).symm

/-- Claim C7, amended: in the line-based chunker every non-final chunk has
at least min_chunk_size non-whitespace characters (the whole-file fallback
document and the merge stage violate the claimed bounds, see the
counterexample). -/
theorem c7_nonfinal_chunk_min (cfg : AstConfig) (doc : Doc) :
    ∀ c ∈ (_chunk_large_document cfg none doc).dropLast,
      cfg.min_chunk_size ≤ countNonWs c.page_content := by
  intro c hc
  exact chunkByLinesGo_dropLast_min cfg doc 0 (splitLines doc.page_content) [] 0 []
    rfl (fun d hd => absurd hd (List.not_mem_nil d)) c hc


theorem countNonWs_replicate (c : Char) (h : (!c.isWhitespace) = true) :
    ∀ n, countNonWs ((List.replicate n c).asString) = n
  | 0 => rfl
  | n + 1 => by
    have ih : ((List.replicate n c).filter (fun x => !x.isWhitespace)).length = n :=
      countNonWs_replicate c h n
    show ((List.replicate (n + 1) c).filter (fun x => !x.isWhitespace)).length = n + 1
    rw [List.replicate_succ, List.filter_cons, if_pos h, List.length_cons, ih]

/-- Witness for the amended C7: a two-line document splits into two
chunks under a small configuration and the non-final chunk meets
min_chunk_size. -/
theorem c7_nonfinal_chunk_min_witness :
    _create_chunk_document "aaaaaa" exC7Doc 0 ∈
      (_chunk_large_document c7Cfg none exC7Doc).dropLast ∧
    c7Cfg.min_chunk_size ≤
      countNonWs (_create_chunk_document "aaaaaa" exC7Doc 0).page_content :=
  ⟨by decide, c7_nonfinal_chunk_min c7Cfg exC7Doc
    (_create_chunk_document "aaaaaa" exC7Doc 0) (by decide)⟩

set_option maxRecDepth 10000 in
/-- Claim C7, counterexample: a 2001-character unsupported-language file
becomes one fallback chunk above max_chunk_size, and merging a short
imported element with a 150-character class leaves a non-final chunk of 10
non-whitespace characters, below min_chunk_size, although the file holds
160. -/
theorem c7_counterexample :
    ((parse_with_ast defaultAstConfig ["python"] none (fun _ => none)
        ((List.replicate 2001 'a').asString) "f.xyz" "").map
      (fun d => countNonWs d.page_content) = [2001] ∧
     defaultAstConfig.max_chunk_size < 2001) ∧
    ((parse_with_ast defaultAstConfig ["python"] (some [c7ImpDoc, c7ClsDoc]) (fun _ => none)
        "import os.e\nclass C: xxx" "f.py" "python").map
      (fun d => countNonWs d.page_content) = [10, 150] ∧
     10 < defaultAstConfig.min_chunk_size ∧
     defaultAstConfig.min_chunk_size ≤
       countNonWs c7ImpDoc.page_content + countNonWs c7ClsDoc.page_content) := by
  refine ⟨⟨?_, by decide⟩, ?_, by decide, by decide⟩
  · show [countNonWs ((List.replicate 2001 'a').asString)] = [2001]
    rw [countNonWs_replicate 'a' (by decide) 2001]
  · decide
